import Mathlib

/-!
Verification of the chess core of `michabay05/chess-engine-gui`.

The repository splits into a GUI layer and a chess core.  The files
`fen.rs`, `game.rs`, `pgn.rs`, `comm.rs` and `game_manager.rs` are embedded
here directly.  The library modules `board.rs`, `moves.rs`, `move_gen.rs`,
`zobrist.rs`, `attack.rs` and `consts.rs` are declared in `chess/lib.rs`
but their sources are not in the tree; every definition standing in for
them carries a doc comment starting with `Modelled from the spec:` and is
written from the specification's description of the missing module.

Machine integers are embedded as `Nat`; a bitboard is a `Nat` whose
meaningful bits are `0..63` (invariants carry the bound `< 2 ^ 64`).
Rust panics are embedded as `Option.none`; fallible results as `Except`.
-/

set_option maxRecDepth 4000

namespace ChessGui

/-! ## Bitboard primitives (`bb.rs`, missing from the tree) -/

/-- Modelled from the spec: `BBUtil::get` on the missing `bb.rs` —
test bit `i` of a 64-bit bitboard. -/
def bbGet (n i : Nat) : Bool := n.testBit i

/-- Modelled from the spec: `BBUtil::set` on the missing `bb.rs` —
set bit `i` of a bitboard. -/
def bbSet (n i : Nat) : Nat := n ||| (1 <<< i)

/-- Modelled from the spec: `count_ones` of a 64-bit bitboard
(population count over bits `0..63`). -/
def countOnes (n : Nat) : Nat :=
  ((Finset.range 64).filter (fun i => n.testBit i)).card

/-- Modelled from the spec: `BBUtil::lsb` on the missing `bb.rs` —
index of the lowest set bit of a bitboard (64 when empty). -/
def lsb (n : Nat) : Nat :=
  ((List.range 64).find? (fun i => n.testBit i)).getD 64

/-- `ROW!` of the missing library root: rank-major row of a square. -/
def ROW (sq : Nat) : Nat := sq / 8

/-- `COL!` of the missing library root: file of a square. -/
def COL (sq : Nat) : Nat := sq % 8

/-- `SQ!` of the missing library root: square from row and file
(square 0 is a8, FEN scan order). -/
def SQ (r f : Nat) : Nat := r * 8 + f

/-! ## Pieces and squares (`consts.rs`, missing from the tree) -/

/-- Modelled from the spec: the 12 piece variants of the missing
`consts.rs` are embedded as indices `0..11` in the order
LP LN LB LR LQ LK DP DN DB DR DQ DK (the order `game.rs` indexes
`pos.piece` with: index 1 = white knight, 2 = white bishop,
7 = black knight, 8 = black bishop). -/
def pieceChars : List Char := ['P', 'N', 'B', 'R', 'Q', 'K', 'p', 'n', 'b', 'r', 'q', 'k']

/-- Modelled from the spec: `Piece::from_char` of the missing `consts.rs`. -/
def piece_from_char (c : Char) : Option Nat :=
  (List.range 12).find? (fun p => pieceChars.getD p ' ' = c)

/-- Modelled from the spec: `Piece::to_char` of the missing `consts.rs`. -/
def piece_to_char (p : Nat) : Char := pieceChars.getD p ' '

/-- Modelled from the spec: the color of a piece index
(0 = light for indices 0..5, 1 = dark for 6..11). -/
def piece_color (p : Nat) : Nat := p / 6

/-- Modelled from the spec: `Sq::NoSq`, the "no square" sentinel. -/
def noSq : Nat := 64

/-- Modelled from the spec: `Sq::from_str` of the missing `consts.rs`:
a coordinate such as "e6" to a square index, square 0 being a8. -/
def sq_from_str (s : String) : Nat :=
  match s.toList with
  | f :: r :: _ => (8 - (r.toNat - '0'.toNat)) * 8 + (f.toNat - 'a'.toNat)
  | _ => noSq

/-- Modelled from the spec: `Sq::to_string` of the missing `consts.rs`. -/
def sq_to_string (sq : Nat) : List Char :=
  [Char.ofNat ('a'.toNat + COL sq), Char.ofNat ('0'.toNat + (8 - ROW sq))]

/-- `PieceColor` of the missing `consts.rs` (the `Both` variant is used
only as occupancy index 2 and is embedded as that index). -/
inductive PieceColor where
  | Light
  | Dark
deriving DecidableEq, Repr

/-- Modelled from the spec: the opposite color. -/
def PieceColor.opposite : PieceColor → PieceColor
  | .Light => .Dark
  | .Dark => .Light

/-! ## Position and Board (`board.rs`, missing from the tree) -/

/-- Modelled from the spec: `Position` of the missing `board.rs` —
twelve piece bitboards and three derived occupancy bitboards
(white, black, both). -/
structure Position where
  piece : List Nat
  units : List Nat
deriving DecidableEq, Repr

/-- Modelled from the spec: the white occupancy, union of the six
light piece bitboards. -/
def white_units (ps : List Nat) : Nat :=
  ((List.range 6).map (fun i => ps.getD i 0)).foldr (fun a b => a ||| b) 0

/-- Modelled from the spec: the black occupancy, union of the six
dark piece bitboards. -/
def black_units (ps : List Nat) : Nat :=
  ((List.range 6).map (fun i => ps.getD (i + 6) 0)).foldr (fun a b => a ||| b) 0

/-- Modelled from the spec: `Position::update_units` — recompute the
occupancy bitboards from the piece bitboards. -/
def update_units (pos : Position) : Position :=
  { pos with units := [white_units pos.piece, black_units pos.piece,
                       white_units pos.piece ||| black_units pos.piece] }

/-- Modelled from the spec: the mutable game state of `board.rs` —
side to move, opposite side, 4-bit castling mask, en passant target
(64 = none), halfmove clock, fullmove counter and the two Zobrist
hashes. -/
structure BoardState where
  side : PieceColor
  xside : PieceColor
  enpassant : Nat
  castling : Nat
  half_moves : Nat
  full_moves : Nat
  key : Nat
  lock : Nat
deriving DecidableEq, Repr

/-- Modelled from the spec: `Board` of the missing `board.rs`. -/
structure Board where
  pos : Position
  state : BoardState
deriving DecidableEq, Repr

/-- Modelled from the spec: `Board::new()` — the empty default board
`fen::parse` starts from. -/
def board_new : Board :=
  { pos := { piece := List.replicate 12 0, units := List.replicate 3 0 },
    state := { side := .Light, xside := .Dark, enpassant := noSq, castling := 0,
               half_moves := 0, full_moves := 0, key := 0, lock := 0 } }

/-- Modelled from the spec: `BoardState::toggle_castling` — toggle one
bit of the castling-rights mask (bit 0 = White kingside, 1 = White
queenside, 2 = Black kingside, 3 = Black queenside, the order
`gen_fen` emits). -/
def toggle_castling (castling : Nat) (c : Nat) : Nat :=
  Nat.xor castling (1 <<< c)

/-- Modelled from the spec: `Board::find_piece` — the piece variant
whose bitboard holds the square, if any. -/
def find_piece (b : Board) (sq : Nat) : Option Nat :=
  (List.range 12).find? (fun p => bbGet (b.pos.piece.getD p 0) sq)

/-- Modelled from the spec: `Board::is_white_to_move`. -/
def is_white_to_move (b : Board) : Bool := b.state.side = .Light

/-! ## Zobrist hashing (`zobrist.rs`, missing from the tree) -/

/-- Modelled from the spec: one of the two independently seeded random
tables of the missing `zobrist.rs` — an entry per (piece, square),
per castling-rights combination, per en-passant file and per side
to move. -/
structure ZobristTables where
  piece_table : Nat → Nat → Nat
  castling_table : Nat → Nat
  enpass_table : Nat → Nat
  side_table : PieceColor → Nat

/-- Modelled from the spec: `ZobristInfo` — the `key` and `lock`
tables. -/
structure ZobristInfo where
  key : ZobristTables
  lock : ZobristTables

/-- Modelled from the spec: `zobrist::gen_board_key` (and, with the
lock tables, `gen_board_lock`) — XOR of the entries for every occupied
(piece, square), the castling-rights combination, the en-passant file
when present, and the side to move. -/
def gen_board_key (zt : ZobristTables) (b : Board) : Nat :=
  let pieceAcc := (List.range 12).foldr (fun p acc =>
    (List.range 64).foldr (fun sq acc2 =>
      if bbGet (b.pos.piece.getD p 0) sq then Nat.xor acc2 (zt.piece_table p sq) else acc2) acc) 0
  Nat.xor (Nat.xor (Nat.xor pieceAcc (zt.castling_table b.state.castling))
    (if b.state.enpassant ≠ noSq then zt.enpass_table (COL b.state.enpassant) else 0))
    (zt.side_table b.state.side)

/-- A concrete all-zero table assignment, used to evaluate positions on
concrete inputs (the tables are process-wide constants in the source;
their values are irrelevant to every claim except equality of hashes). -/
def z_zero : ZobristInfo :=
  { key := ⟨fun _ _ => 0, fun _ => 0, fun _ => 0, fun _ => 0⟩,
    lock := ⟨fun _ _ => 0, fun _ => 0, fun _ => 0, fun _ => 0⟩ }

/-! ## FEN (embeds `src/fen.rs`) -/

/-- ASCII whitespace, the split class of `str::split_ascii_whitespace`. -/
def isWs (c : Char) : Bool := c = ' ' ∨ c = '\t' ∨ c = '\n' ∨ c = '\r'

/-- One step of `split_ascii_whitespace`: accumulate the current word. -/
def split_ws_core : List Char → List Char → List String
  | [], cur => if cur.isEmpty then [] else [String.mk cur.reverse]
  | c :: rest, cur =>
    if isWs c then
      if cur.isEmpty then split_ws_core rest []
      else String.mk cur.reverse :: split_ws_core rest []
    else split_ws_core rest (c :: cur)

/-- `str::split_ascii_whitespace` collected to a list. -/
def split_ws (l : List Char) : List String := split_ws_core l []

/-- One character of `fen.rs::parse_pieces`: '/' is skipped, a digit
advances the square counter, a piece letter sets the square in that
piece's bitboard and advances by one; other characters are ignored. -/
def pp_step (st : List Nat × Nat) (c : Char) : List Nat × Nat :=
  if c = '/' then st
  else if c.isDigit then (st.1, st.2 + (c.toNat - '0'.toNat))
  else if c.isAlpha then
    match piece_from_char c with
    | some p => (st.1.set p (bbSet (st.1.getD p 0) st.2), st.2 + 1)
    | none => st
  else st

/-- `fen.rs::parse_pieces` — fold the placement field over the piece
bitboards, starting at square 0 (a8). -/
def parse_pieces (placement : List Char) (ps : List Nat) : List Nat :=
  (placement.foldl pp_step (ps, 0)).1

/-- Decimal value of a digit list (the accumulator form `u32::from_str`
computes). -/
def digits_to_nat (cs : List Char) : Nat :=
  cs.foldl (fun acc c => acc * 10 + (c.toNat - '0'.toNat)) 0

/-- Rust `str::parse::<u32>` — nonempty, decimal digits only, bounded
by `2^32`; `none` embeds the parse error (which `fen.rs` unwraps into
a panic). -/
def parse_u32 (s : String) : Option Nat :=
  let cs := s.toList
  if cs.isEmpty then none
  else if cs.all Char.isDigit then
    if digits_to_nat cs < 2 ^ 32 then some (digits_to_nat cs) else none
  else none

/-- The castling-field loop of `fen.rs::parse`: toggle the rights bit
named by each character. -/
def parse_castling (chars : List Char) (castling : Nat) : Nat :=
  chars.foldl (fun acc c =>
    if c = 'K' then toggle_castling acc 0
    else if c = 'Q' then toggle_castling acc 1
    else if c = 'k' then toggle_castling acc 2
    else if c = 'q' then toggle_castling acc 3
    else acc) castling

/-- The body of `fen.rs::parse` once the six fields are unwrapped: fill
a default `Board` field by field, recompute the occupancy bitboards
and derive both Zobrist hashes, exactly as the source does.  The two
clock parses still panic (`none`) on malformed numbers. -/
def parse_fields (zi : ZobristInfo)
    (placement side_str castle_str ep_str half_str full_str : String) : Option Board :=
  let b0 := board_new
  let pieces := parse_pieces placement.toList b0.pos.piece
  let st0 := b0.state
  let st1 :=
    if side_str = "w" then { st0 with side := PieceColor.Light, xside := PieceColor.Dark }
    else if side_str = "b" then { st0 with side := PieceColor.Dark, xside := PieceColor.Light }
    else st0
  let st2 := { st1 with castling := parse_castling castle_str.toList st1.castling }
  let st3 := if ep_str ≠ "-" then { st2 with enpassant := sq_from_str ep_str } else st2
  match parse_u32 half_str with
  | none => none
  | some half =>
    match parse_u32 full_str with
    | none => none
    | some full =>
      let st4 := { st3 with half_moves := half, full_moves := full }
      let pos := update_units { piece := pieces, units := b0.pos.units }
      let b1 : Board := { pos := pos, state := st4 }
      let st5 := { st4 with key := gen_board_key zi.key b1, lock := gen_board_key zi.lock b1 }
      some { b1 with state := st5 }

/-- Embeds `fen.rs::parse`.  The source unwraps each of the six
whitespace-separated fields; a failed unwrap is a Rust panic,
embedded here as `none`. -/
def parse (fen : String) (zi : ZobristInfo) : Option Board :=
  match split_ws fen.toList with
  | placement :: side_str :: castle_str :: ep_str :: half_str :: full_str :: _ =>
    parse_fields zi placement side_str castle_str ep_str half_str full_str
  | _ => none

/-- Decimal digit character, `char::from_digit(e, 10)` for `e ≤ 9`. -/
def digitCh (e : Nat) : Char := Char.ofNat ('0'.toNat + e)

/-- Fueled decimal rendering (the fuel always exceeds the number). -/
def nat_chars_go (fuel n : Nat) : List Char :=
  match fuel with
  | 0 => []
  | fuel + 1 => if n < 10 then [digitCh n] else nat_chars_go fuel (n / 10) ++ [digitCh (n % 10)]

/-- The decimal rendering Rust's `format!` produces for an unsigned
integer. -/
def nat_to_chars (n : Nat) : List Char := nat_chars_go (n + 1) n

/-- The inner rank loop of `fen.rs::gen_fen`: `k` files remain, `e`
empty squares are pending; a piece flushes the pending count first,
the rank ends by flushing any remaining count. -/
def rank_go (b : Board) (r : Nat) : Nat → Nat → List Char
  | 0, e => if e = 0 then [] else [digitCh e]
  | k + 1, e =>
    match find_piece b (SQ r (8 - (k + 1))) with
    | some p => (if e = 0 then [] else [digitCh e]) ++ piece_to_char p :: rank_go b r k 0
    | none => rank_go b r k (e + 1)

/-- The placement field of `fen.rs::gen_fen`: the eight ranks joined
by '/'. -/
def placement_chars (b : Board) : List Char :=
  rank_go b 0 8 0 ++ '/' ::
    (rank_go b 1 8 0 ++ '/' ::
      (rank_go b 2 8 0 ++ '/' ::
        (rank_go b 3 8 0 ++ '/' ::
          (rank_go b 4 8 0 ++ '/' ::
            (rank_go b 5 8 0 ++ '/' ::
              (rank_go b 6 8 0 ++ '/' :: rank_go b 7 8 0))))))

/-- The castling field of `fen.rs::gen_fen`. -/
def castling_chars (castling : Nat) : List Char :=
  if castling ≠ 0 then
    (if bbGet castling 0 then ['K'] else []) ++
    (if bbGet castling 1 then ['Q'] else []) ++
    (if bbGet castling 2 then ['k'] else []) ++
    (if bbGet castling 3 then ['q'] else [])
  else ['-']

/-- Embeds `fen.rs::gen_fen`: serialize a `Board` to the six-field FEN
string. -/
def gen_fen (b : Board) : String :=
  String.mk
    (placement_chars b ++ [' '] ++
     [(if b.state.side = PieceColor.Light then 'w' else 'b')] ++ [' '] ++
     castling_chars b.state.castling ++ [' '] ++
     (if b.state.enpassant ≠ noSq then sq_to_string b.state.enpassant else ['-']) ++ [' '] ++
     nat_to_chars b.state.half_moves ++ [' '] ++
     nat_to_chars b.state.full_moves)

/-! ## Insufficient material (embeds `game.rs::insufficient_material`) -/

/-- Embeds `game.rs::insufficient_material`, branch for branch: bare
kings; a lone knight or bishop against a bare king (either side); a
knight each; and a bishop each, drawn exactly when the two bishops
stand on squares of the same color parity. -/
def insufficient_material (b : Board) : Bool :=
  let u0 := b.pos.units.getD 0 0
  let u1 := b.pos.units.getD 1 0
  if countOnes u0 = 1 ∧ countOnes u1 = 1 then true
  else if (countOnes u0 = 2 ∧ countOnes (b.pos.piece.getD 1 0) = 1 ∧ countOnes u1 = 1)
      ∨ (countOnes u1 = 2 ∧ countOnes (b.pos.piece.getD 7 0) = 1 ∧ countOnes u0 = 1) then true
  else if (countOnes u0 = 2 ∧ countOnes (b.pos.piece.getD 2 0) = 1 ∧ countOnes u1 = 1)
      ∨ (countOnes u1 = 2 ∧ countOnes (b.pos.piece.getD 8 0) = 1 ∧ countOnes u0 = 1) then true
  else if countOnes u0 = 2 ∧ countOnes (b.pos.piece.getD 1 0) = 1
      ∧ countOnes u1 = 2 ∧ countOnes (b.pos.piece.getD 7 0) = 1 then true
  else if countOnes u0 = 2 ∧ countOnes (b.pos.piece.getD 2 0) = 1
      ∧ countOnes u1 = 2 ∧ countOnes (b.pos.piece.getD 8 0) = 1 then
    let wb := lsb (b.pos.piece.getD 2 0)
    let db := lsb (b.pos.piece.getD 8 0)
    decide ((ROW wb + COL wb) % 2 = (ROW db + COL db) % 2)
  else false

/-! ## Attacks (`attack.rs`, missing from the tree) -/

/-- Modelled from the spec: step a square by a (row, file) offset,
discarding board-edge wrap-around (§4.1 of the spec). -/
def shiftRF (sq : Nat) (dr df : Int) : Option Nat :=
  let r : Int := (ROW sq : Int) + dr
  let f : Int := (COL sq : Int) + df
  if 0 ≤ r ∧ r < 8 ∧ 0 ≤ f ∧ f < 8 then some (r.toNat * 8 + f.toNat) else none

/-- Modelled from the spec: a leaper attack bitboard, the OR of the
valid target offsets. -/
def leaper_attack (sq : Nat) (offsets : List (Int × Int)) : Nat :=
  offsets.foldr (fun o acc =>
    match shiftRF sq o.1 o.2 with
    | some t => bbSet acc t
    | none => acc) 0

/-- Modelled from the spec: knight attacks from the missing `attack.rs`. -/
def knight_attack (sq : Nat) : Nat :=
  leaper_attack sq [(-2, -1), (-2, 1), (-1, -2), (-1, 2), (1, -2), (1, 2), (2, -1), (2, 1)]

/-- Modelled from the spec: king attacks from the missing `attack.rs`. -/
def king_attack (sq : Nat) : Nat :=
  leaper_attack sq [(-1, -1), (-1, 0), (-1, 1), (0, -1), (0, 1), (1, -1), (1, 0), (1, 1)]

/-- Modelled from the spec: pawn attacks by color (square 0 is a8, so
light pawns attack toward smaller rows). -/
def pawn_attack (c : PieceColor) (sq : Nat) : Nat :=
  match c with
  | .Light => leaper_attack sq [(-1, -1), (-1, 1)]
  | .Dark => leaper_attack sq [(1, -1), (1, 1)]

/-- Modelled from the spec: one sliding ray — cast until blocked, the
blocking square included (§4.1: "compute the true attack bitboard by
ray-casting until blocked"). -/
def ray_go (occ : Nat) (dr df : Int) : Nat → Nat → Nat
  | 0, _ => 0
  | fuel + 1, cur =>
    match shiftRF cur dr df with
    | none => 0
    | some nxt => bbSet (if bbGet occ nxt then 0 else ray_go occ dr df fuel nxt) nxt

/-- Modelled from the spec: bishop attacks against an occupancy. -/
def bishop_attack (occ sq : Nat) : Nat :=
  ray_go occ (-1) (-1) 7 sq ||| ray_go occ (-1) 1 7 sq |||
  ray_go occ 1 (-1) 7 sq ||| ray_go occ 1 1 7 sq

/-- Modelled from the spec: rook attacks against an occupancy. -/
def rook_attack (occ sq : Nat) : Nat :=
  ray_go occ (-1) 0 7 sq ||| ray_go occ 1 0 7 sq |||
  ray_go occ 0 (-1) 7 sq ||| ray_go occ 0 1 7 sq

/-- Modelled from the spec: queen attacks = bishop OR rook attacks. -/
def queen_attack (occ sq : Nat) : Nat := bishop_attack occ sq ||| rook_attack occ sq

/-- Modelled from the spec: the attack set of piece variant `p`
standing on square `s` against occupancy `occ`. -/
def piece_attack (occ : Nat) (p : Nat) (s : Nat) : Nat :=
  match p % 6 with
  | 0 => pawn_attack (if p < 6 then .Light else .Dark) s
  | 1 => knight_attack s
  | 2 => bishop_attack occ s
  | 3 => rook_attack occ s
  | 4 => queen_attack occ s
  | _ => king_attack s

/-- Modelled from the spec: whether color `c` attacks square `sq` on
board `b` (the square-attacked query of the missing `board.rs`). -/
def is_square_attacked (b : Board) (sq : Nat) (c : PieceColor) : Bool :=
  let occ := b.pos.units.getD 2 0
  (List.range 64).any (fun s =>
    match find_piece b s with
    | some p => ((if p < 6 then PieceColor.Light else PieceColor.Dark) = c : Bool)
        && bbGet (piece_attack occ p s) sq
    | none => false)

/-- Modelled from the spec: `Board::is_in_check(b, c)` as used by
`game.rs` and `pgn.rs` — color `c` is giving check, i.e. the king of
the side opposite `c` is attacked by `c`. -/
def is_in_check (b : Board) (c : PieceColor) : Bool :=
  let kingBB := b.pos.piece.getD (if c = PieceColor.Light then 11 else 5) 0
  is_square_attacked b (lsb kingBB) c

/-! ## Moves (`moves.rs` and `move_gen.rs`, missing from the tree) -/

/-- Modelled from the spec: the `Move` record — source, target, moved
piece, optional promotion piece, and the capture / double-push /
en-passant / castling flags (§3 of the spec; the flag layout matches
the `Move::from_str(_, piece, capture, double, enpassant, castling)`
argument order of the tests in `pgn.rs`, where an en-passant move has
`capture = false`). -/
structure Move where
  source : Nat
  target : Nat
  piece : Nat
  promoted : Option Nat
  capture : Bool
  double_push : Bool
  enpassant : Bool
  castling : Bool
deriving DecidableEq, Repr

/-- The squares of a bitboard, in increasing order. -/
def squaresOf (bb : Nat) : List Nat := (List.range 64).filter (fun i => bbGet bb i)

/-- Modelled from the spec: pawn move generation for one color —
single push, double push from the starting rank, promotions on the
last rank (one move per promotable piece), diagonal captures against
the attack table, and en passant when the diagonal target equals the
en-passant square (§4.2). -/
def pawn_moves_for (b : Board) (c : PieceColor) (pBase : Nat) (dr : Int)
    (startRow promoRow : Nat) (promos : List Nat) (enemyIdx : Nat) : List Move :=
  let occ := b.pos.units.getD 2 0
  let enemy := b.pos.units.getD enemyIdx 0
  (squaresOf (b.pos.piece.getD pBase 0)).flatMap (fun s =>
    let pushes :=
      match shiftRF s dr 0 with
      | some t =>
        if bbGet occ t then []
        else
          (if ROW t = promoRow then
            promos.map (fun pr => { source := s, target := t, piece := pBase, promoted := some pr,
                                    capture := false, double_push := false,
                                    enpassant := false, castling := false })
           else [{ source := s, target := t, piece := pBase, promoted := none, capture := false,
                   double_push := false, enpassant := false, castling := false }]) ++
          (if ROW s = startRow then
            match shiftRF t dr 0 with
            | some t2 =>
              if bbGet occ t2 then []
              else [{ source := s, target := t2, piece := pBase, promoted := none,
                      capture := false, double_push := true, enpassant := false,
                      castling := false }]
            | none => []
           else [])
      | none => []
    let caps := (squaresOf (pawn_attack c s)).flatMap (fun t =>
      if bbGet enemy t then
        (if ROW t = promoRow then
          promos.map (fun pr => { source := s, target := t, piece := pBase, promoted := some pr,
                                  capture := true, double_push := false,
                                  enpassant := false, castling := false })
         else [{ source := s, target := t, piece := pBase, promoted := none, capture := true,
                 double_push := false, enpassant := false, castling := false }])
      else if t = b.state.enpassant then
        [{ source := s, target := t, piece := pBase, promoted := none, capture := false,
           double_push := false, enpassant := true, castling := false }]
      else [])
    pushes ++ caps)

/-- Modelled from the spec: moves of a non-pawn piece variant via its
attack set, masked to exclude own-piece squares; a move is a capture
exactly when the target holds an enemy piece (§4.2). -/
def norm_moves (b : Board) (p : Nat) (atk : Nat → Nat) : List Move :=
  let own := b.pos.units.getD (piece_color p) 0
  let enemy := b.pos.units.getD (1 - piece_color p) 0
  (squaresOf (b.pos.piece.getD p 0)).flatMap (fun s =>
    (squaresOf (atk s)).filterMap (fun t =>
      if bbGet own t then none
      else some { source := s, target := t, piece := p, promoted := none,
                  capture := bbGet enemy t, double_push := false,
                  enpassant := false, castling := false }))

/-- Modelled from the spec: castling generation — the right must be
held, the squares between king and rook empty, and the king's square
and the squares it passes through (destination included) unattacked
(§4.2). -/
def castling_moves (b : Board) : List Move :=
  let occ := b.pos.units.getD 2 0
  match b.state.side with
  | .Light =>
    (if bbGet b.state.castling 0 && !bbGet occ 61 && !bbGet occ 62
        && !is_square_attacked b 60 .Dark && !is_square_attacked b 61 .Dark
        && !is_square_attacked b 62 .Dark then
      [{ source := 60, target := 62, piece := 5, promoted := none, capture := false,
         double_push := false, enpassant := false, castling := true }]
     else []) ++
    (if bbGet b.state.castling 1 && !bbGet occ 57 && !bbGet occ 58 && !bbGet occ 59
        && !is_square_attacked b 60 .Dark && !is_square_attacked b 59 .Dark
        && !is_square_attacked b 58 .Dark then
      [{ source := 60, target := 58, piece := 5, promoted := none, capture := false,
         double_push := false, enpassant := false, castling := true }]
     else [])
  | .Dark =>
    (if bbGet b.state.castling 2 && !bbGet occ 5 && !bbGet occ 6
        && !is_square_attacked b 4 .Light && !is_square_attacked b 5 .Light
        && !is_square_attacked b 6 .Light then
      [{ source := 4, target := 6, piece := 11, promoted := none, capture := false,
         double_push := false, enpassant := false, castling := true }]
     else []) ++
    (if bbGet b.state.castling 3 && !bbGet occ 1 && !bbGet occ 2 && !bbGet occ 3
        && !is_square_attacked b 4 .Light && !is_square_attacked b 3 .Light
        && !is_square_attacked b 2 .Light then
      [{ source := 4, target := 2, piece := 11, promoted := none, capture := false,
         double_push := false, enpassant := false, castling := true }]
     else [])

/-- Modelled from the spec: `move_gen::generate_all` — all pseudo-legal
moves of the side to move, by piece type (§4.2). -/
def generate_all (b : Board) : List Move :=
  let occ := b.pos.units.getD 2 0
  match b.state.side with
  | .Light =>
    pawn_moves_for b PieceColor.Light 0 (-1) 6 0 [1, 2, 3, 4] 1 ++
    norm_moves b 1 knight_attack ++ norm_moves b 2 (bishop_attack occ) ++
    norm_moves b 3 (rook_attack occ) ++ norm_moves b 4 (queen_attack occ) ++
    norm_moves b 5 king_attack ++ castling_moves b
  | .Dark =>
    pawn_moves_for b PieceColor.Dark 6 1 1 7 [7, 8, 9, 10] 0 ++
    norm_moves b 7 knight_attack ++ norm_moves b 8 (bishop_attack occ) ++
    norm_moves b 9 (rook_attack occ) ++ norm_moves b 10 (queen_attack occ) ++
    norm_moves b 11 king_attack ++ castling_moves b

/-- Clear bit `i` of a bitboard. -/
def bbPop (n i : Nat) : Nat := if n.testBit i then n - (1 <<< i) else n

/-- Modelled from the spec: the enemy piece variant captured on a
square, searched among the opponent's six bitboards. -/
def capture_victim (ps : List Nat) (us : PieceColor) (sq : Nat) : Option Nat :=
  (match us with
   | PieceColor.Light => [6, 7, 8, 9, 10, 11]
   | PieceColor.Dark => [0, 1, 2, 3, 4, 5]).find? (fun p => bbGet (ps.getD p 0) sq)

/-- Modelled from the spec: clearing of castling rights — moving a
king or rook, or capturing a rook on its home square, permanently
clears the relevant bits (§4.3). -/
def castle_rights_update (rights : Nat) (sq : Nat) : Nat :=
  let mask :=
    if sq = 60 then 3
    else if sq = 63 then 1
    else if sq = 56 then 2
    else if sq = 4 then 12
    else if sq = 7 then 4
    else if sq = 0 then 8
    else 0
  rights &&& Nat.xor 15 mask

/-- Modelled from the spec: the mutation step of `moves::make` with
`MoveFlag::AllMoves` (the only flag the embedded callers use) — apply
a pseudo-legal move: move (or promote) the piece, remove a captured
piece (behind the target for en passant), relocate the rook on
castling, update rights, en-passant target, the clocks, flip the
side, recompute occupancies and both hashes (§4.3). -/
def make_applied (zi : ZobristInfo) (b : Board) (mv : Move) : Board :=
  let us := b.state.side
  let landing := mv.promoted.getD mv.piece
  let ps0 := b.pos.piece
  let ps1 := ps0.set mv.piece (bbPop (ps0.getD mv.piece 0) mv.source)
  let ps2 := ps1.set landing (bbSet (ps1.getD landing 0) mv.target)
  let ps3 :=
    if mv.capture then
      match capture_victim ps2 us mv.target with
      | some v => ps2.set v (bbPop (ps2.getD v 0) mv.target)
      | none => ps2
    else if mv.enpassant then
      match us with
      | .Light => ps2.set 6 (bbPop (ps2.getD 6 0) (mv.target + 8))
      | .Dark => ps2.set 0 (bbPop (ps2.getD 0 0) (mv.target - 8))
    else ps2
  let ps4 :=
    if mv.castling then
      if mv.target = 62 then ps3.set 3 (bbSet (bbPop (ps3.getD 3 0) 63) 61)
      else if mv.target = 58 then ps3.set 3 (bbSet (bbPop (ps3.getD 3 0) 56) 59)
      else if mv.target = 6 then ps3.set 9 (bbSet (bbPop (ps3.getD 9 0) 7) 5)
      else if mv.target = 2 then ps3.set 9 (bbSet (bbPop (ps3.getD 9 0) 0) 3)
      else ps3
    else ps3
  let rights := castle_rights_update (castle_rights_update b.state.castling mv.source) mv.target
  let ep := if mv.double_push then (mv.source + mv.target) / 2 else noSq
  let half := if mv.piece % 6 = 0 ∨ mv.capture then 0 else b.state.half_moves + 1
  let full := if us = PieceColor.Dark then b.state.full_moves + 1 else b.state.full_moves
  let pos := update_units { piece := ps4, units := b.pos.units }
  let stA : BoardState :=
    { side := us.opposite, xside := us, enpassant := ep, castling := rights,
      half_moves := half, full_moves := full, key := 0, lock := 0 }
  let b1 : Board := { pos := pos, state := stA }
  { b1 with state := { stA with key := gen_board_key zi.key b1, lock := gen_board_key zi.lock b1 } }

/-- The bitboard index of a color's king. -/
def king_idx : PieceColor → Nat
  | .Light => 5
  | .Dark => 11

/-- The legality verdict of `moves::make`: the applied board is kept
only when the mover's king is not attacked by the opponent. -/
def moves_make (zi : ZobristInfo) (b : Board) (mv : Move) : Option Board :=
  let b2 := make_applied zi b mv
  if is_square_attacked b2 (lsb (b2.pos.piece.getD (king_idx b.state.side) 0))
      b.state.side.opposite
  then none else some b2

/-! ## Game state (embeds `game.rs`) -/

/-- Embeds the `GameState` enum of `game.rs`. -/
inductive GameState where
  | Ongoing
  | LightWinByCheckmate
  | DarkWinByCheckmate
  | LightLostOnTime
  | DarkLostOnTime
  | LightIllegalMove
  | DarkIllegalMove
  | DrawByStalemate
  | DrawByFiftyMoveRule
  | DrawByThreefoldRepetition
  | DrawByInsufficientMaterial
deriving DecidableEq, Repr

/-- The legality filter of `game.rs::set_state`: the reversed removal
loop keeps, in order, exactly the generated moves that `moves::make`
accepts on a clone of the current board. -/
def legal_moves (zi : ZobristInfo) (b : Board) : List Move :=
  (generate_all b).filter (fun m => (moves_make zi b m).isSome)

/-- The repetition scan of `game.rs::set_state`: how many stored boards
carry the given (key, lock) pair.  The source walks the history in
order, increments a counter on each match and returns the draw the
moment the counter reaches 3 — which happens exactly when at least
three stored boards match. -/
def repetition_count (boards : List Board) (key lock : Nat) : Nat :=
  boards.countP (fun bd => (bd.state.key == key) && (bd.state.lock == lock))

/-- Embeds `game.rs::Game::set_state`: fifty-move rule first, then
insufficient material, then the no-legal-move checkmate / stalemate
branch, then threefold repetition against the stored history, else
ongoing.  `current` is the board after the move just made; `boards`
is the history it is not yet part of. -/
def set_state (zi : ZobristInfo) (current : Board) (boards : List Board) : GameState :=
  if current.state.half_moves ≥ 100 then .DrawByFiftyMoveRule
  else if insufficient_material current then .DrawByInsufficientMaterial
  else if (legal_moves zi current).length = 0 then
    if is_in_check current current.state.xside then
      if current.state.xside = PieceColor.Light then .LightWinByCheckmate
      else .DarkWinByCheckmate
    else .DrawByStalemate
  else if repetition_count boards current.state.key current.state.lock ≥ 3 then
    .DrawByThreefoldRepetition
  else .Ongoing

/-- Embeds the `Game` struct of `game.rs`. -/
structure Game where
  start_fen : String
  state : GameState
  boards : List Board
  moves : List Move
  white_name : String
  black_name : String
deriving DecidableEq, Repr

/-- Embeds `Game::from_fen` (via `Board::from_fen`, which parses the
FEN; a parse panic propagates). -/
def Game.from_fen (white_name black_name fen : String) (zi : ZobristInfo) : Option Game :=
  match parse fen zi with
  | some b => some { start_fen := fen, state := .Ongoing, boards := [b], moves := [],
                     white_name := white_name, black_name := black_name }
  | none => none

/-- Embeds `Game::make_move`: take the last stored board, try the move
on a clone; on success push the move, recompute the state against the
history (the new board not yet pushed), then push the board; on
failure return `false` and leave the game untouched. -/
def Game.make_move (zi : ZobristInfo) (g : Game) (mv : Move) : Bool × Game :=
  match g.boards.getLast? with
  | none => (false, g)
  | some current =>
    match moves_make zi current mv with
    | some next =>
      (true, { g with moves := g.moves ++ [mv],
                      state := set_state zi next g.boards,
                      boards := g.boards ++ [next] })
    | none => (false, g)

/-- Embeds the return value of `Game::save` (`game.rs:145`): the
boolean it returns is `pgn::save(..).is_err()`, with the outcome of
the file write abstracted as an `Except` (the `io::Error` payload is
irrelevant and embedded as `String`). -/
def game_save (pgnResult : Except String Bool) : Bool :=
  match pgnResult with
  | .error _ => true
  | .ok _ => false

/-! ## Engine communication (embeds the reply handling of `comm.rs`) -/

/-- `str::rfind` — the start of the last occurrence of a pattern. -/
def find_last_idx (hay pat : List Char) : Option Nat :=
  ((List.range (hay.length + 1)).filter (fun i => pat.isPrefixOf (hay.drop i))).getLast?

/-- `str::trim` restricted to ASCII whitespace (the buffers here are
ASCII engine output). -/
def trim_chars (cs : List Char) : List Char :=
  ((cs.dropWhile isWs).reverse.dropWhile isWs).reverse

/-- Rust `str::parse::<i32>` — optional sign, decimal digits, bounded;
`none` embeds the parse error (which `comm.rs` turns into a panic). -/
def parse_i32 (cs : List Char) : Option Int :=
  match cs with
  | '-' :: rest =>
    if rest ≠ [] ∧ rest.all Char.isDigit ∧ digits_to_nat rest ≤ 2 ^ 31 then
      some (-(digits_to_nat rest : Int))
    else none
  | '+' :: rest =>
    if rest ≠ [] ∧ rest.all Char.isDigit ∧ digits_to_nat rest < 2 ^ 31 then
      some (digits_to_nat rest : Int)
    else none
  | _ =>
    if cs ≠ [] ∧ cs.all Char.isDigit ∧ digits_to_nat cs < 2 ^ 31 then
      some (digits_to_nat cs : Int)
    else none

/-- The score parsing of `EngineComm::best_move`: locate the last
"cp" (or, failing that, "mate") occurrence, trim what follows the
marker, cut at the next whitespace (a panic — `false` — when there is
none) and parse the slice as an `i32` (a panic on failure); with no
marker found at all the source only logs a warning and continues. -/
def eval_parse_ok (hay : List Char) (is_mate0 : Bool) : Bool :=
  let scored : Option Nat × Bool :=
    match find_last_idx hay "cp".toList with
    | some i => (some i, is_mate0)
    | none => (find_last_idx hay "mate".toList, true)
  match scored.1 with
  | some score_ind =>
    let substr := trim_chars (hay.drop (score_ind + (if scored.2 then 4 else 2)))
    match substr.findIdx? (fun c => isWs c) with
    | some space => (parse_i32 (substr.take space)).isSome
    | none => false
  | none => true

/-- The word extraction of `EngineComm::best_move`: take at most five
bytes after "bestmove" (eight bytes of pattern), split off the first
whitespace-separated word and return its first four bytes — a panic
(`none`) when the word is shorter than four. -/
def best_move_word (hay : List Char) (ind : Nat) : Option String :=
  let word_len := min (hay.length - (ind + 8)) 5
  match (split_ws ((hay.drop (ind + 8)).take word_len)).head? with
  | some w => if w.toList.length < 4 then none else some (String.mk (w.toList.take 4))
  | none => none

/-- Embeds the reply processing of `EngineComm::best_move`
(`comm.rs:144-183`) on the buffer read from the engine; the in-out
`is_mate` flag enters as `is_mate0`.  After locating the last
"bestmove", the source parses the trailing score (panicking on a
malformed one) and then extracts the move word. -/
def best_move (buf : String) (is_mate0 : Bool) : Option String :=
  match find_last_idx buf.toList "bestmove".toList with
  | none => none
  | some ind =>
    if eval_parse_ok buf.toList is_mate0 then best_move_word buf.toList ind else none

/-! ## Concrete boards, games and moves used by the theorems -/

/-- Fallback game for `Option.getD` on concretely parsed games. -/
def game_default : Game :=
  { start_fen := "", state := .Ongoing, boards := [], moves := [],
    white_name := "", black_name := "" }

/-- A concrete nontrivial table assignment, standing in for one run of
the process-wide random Zobrist tables. -/
def z_demo : ZobristInfo :=
  { key := ⟨fun p sq => (p + 2) * (sq + 3) + 1, fun c => c * 17 + 5, fun f => f * 29 + 11,
            fun s => if s = PieceColor.Light then 101 else 202⟩,
    lock := ⟨fun p sq => (p + 5) * (sq + 7) + 2, fun c => c * 19 + 3, fun f => f * 31 + 13,
             fun s => if s = PieceColor.Light then 303 else 404⟩ }

/-- A quiet (no-flag) move record. -/
def quiet_move (s t p : Nat) : Move :=
  { source := s, target := t, piece := p, promoted := none, capture := false,
    double_push := false, enpassant := false, castling := false }

/-- The spec's checkmate test position, white to move. -/
def mate_fen : String := "k7/8/1K6/8/8/8/2R5/8 w - - 0 1"

/-- The board of `mate_fen`. -/
def mate_before : Board := (parse mate_fen z_zero).getD board_new

/-- The move Rc8 (c2 = square 50 to c8 = square 2, white rook = 3). -/
def rc8_move : Move := quiet_move 50 2 3

/-- The board after Rc8. -/
def mate_after : Board := (moves_make z_zero mate_before rc8_move).getD board_new

/-- A fresh game at `mate_fen`. -/
def mate_game : Game := (Game.from_fen "white" "black" mate_fen z_zero).getD game_default

/-- The game after playing Rc8 in `mate_game`. -/
def mate_game_after : Game := (Game.make_move z_zero mate_game rc8_move).2

/-- Black's only pseudo-legal try Ka7 afterwards (a8 = 0 to a7 = 8),
illegal because a7 is covered by the white king. -/
def ka7_move : Move := quiet_move 0 8 11

/-- Fold a list of moves through `Game::make_move`. -/
def play (zi : ZobristInfo) (g : Game) (ms : List Move) : Game :=
  ms.foldl (fun acc m => (Game.make_move zi acc m).2) g

/-- A fresh game at `mate_fen` under the demo tables, used to replay a
king shuffle. -/
def c1_game : Game := (Game.from_fen "white" "black" mate_fen z_demo).getD game_default

/-- One four-ply king shuffle that returns to the starting placement:
Kb6-a6, Ka8-b8, Ka6-b6, Kb8-a8. -/
def c1_cycle : List Move := [quiet_move 17 16 5, quiet_move 0 1 11,
                             quiet_move 16 17 5, quiet_move 1 0 11]

/-- The game after two full shuffles: the starting position now stands
on the board for the third time. -/
def c1_after8 : Game := play z_demo c1_game (c1_cycle ++ c1_cycle)

/-- The current (last) board after two full shuffles. -/
def c1_board8 : Board := c1_after8.boards.getLast?.getD board_new

/-- The spec's bare-kings position. -/
def bare_kings : Board := (parse "8/8/8/8/8/8/8/4k2K w - - 0 1" z_zero).getD board_new

/-- The mate position with the halfmove clock at 99. -/
def clock99 : Board := (parse "k7/8/1K6/8/8/8/2R5/8 w - - 99 1" z_zero).getD board_new

/-- The same position with the clock at 100. -/
def clock100 : Board := (parse "k7/8/1K6/8/8/8/2R5/8 w - - 100 1" z_zero).getD board_new

/-- The rook move Rc2-c3 (50 to 42), neither a pawn move nor a capture. -/
def rc3_move : Move := quiet_move 50 42 3

/-- The board reached by Rc3 from `clock99`. -/
def clock99_after : Board := (moves_make z_zero clock99 rc3_move).getD board_new

/-! ## Bit-counting lemmas for the material analysis -/

theorem testBit_foldr_or (l : List Nat) (i : Nat) :
    (l.foldr (fun a b => a ||| b) 0).testBit i = l.any (fun x => x.testBit i) := by
  induction l with
  | nil => simp [Nat.zero_testBit]
  | cons x xs ih => simp [Nat.testBit_or, ih]

theorem land_foldr_or (a : Nat) (l : List Nat) (h : ∀ x ∈ l, a &&& x = 0) :
    a &&& l.foldr (fun p q => p ||| q) 0 = 0 := by
  apply Nat.eq_of_testBit_eq
  intro i
  rw [Nat.testBit_and, testBit_foldr_or, Nat.zero_testBit]
  by_cases ha : a.testBit i
  · rw [ha, Bool.true_and, List.any_eq_false]
    intro x hx
    have hz : (a &&& x).testBit i = false := by rw [h x hx]; exact Nat.zero_testBit i
    rw [Nat.testBit_and, ha, Bool.true_and] at hz
    simp [hz]
  · simp [ha]

theorem countOnes_or_disjoint (a b : Nat) (h : a &&& b = 0) :
    countOnes (a ||| b) = countOnes a + countOnes b := by
  unfold countOnes
  rw [← Finset.card_union_of_disjoint ?hd]
  · congr 1
    ext i
    simp only [Finset.mem_union, Finset.mem_filter, Finset.mem_range, Nat.testBit_or,
      Bool.or_eq_true]
    tauto
  case hd =>
    rw [Finset.disjoint_left]
    intro i hi hbi
    simp only [Finset.mem_filter] at hi hbi
    have hone : (a &&& b).testBit i = true := by rw [Nat.testBit_and, hi.2, hbi.2]; rfl
    rw [h, Nat.zero_testBit] at hone
    cases hone

theorem countOnes_foldr_disjoint (l : List Nat)
    (h : List.Pairwise (fun a b => a &&& b = 0) l) :
    countOnes (l.foldr (fun p q => p ||| q) 0) = (l.map countOnes).sum := by
  induction l with
  | nil => simp [countOnes, Nat.zero_testBit]
  | cons x xs ih =>
    rcases List.pairwise_cons.mp h with ⟨hx, hxs⟩
    rw [List.foldr_cons, countOnes_or_disjoint x _ (land_foldr_or x xs hx), ih hxs,
        List.map_cons, List.sum_cons]

/-- Pairwise-disjoint piece bitboards, as `∀` over the twelve indices. -/
def PiecesDisjoint (ps : List Nat) : Prop :=
  ∀ p ∈ List.range 12, ∀ q ∈ List.range 12, p ≠ q → ps.getD p 0 &&& ps.getD q 0 = 0

theorem countOnes_white_units (ps : List Nat) (hd : PiecesDisjoint ps) :
    countOnes (white_units ps) =
      countOnes (ps.getD 0 0) + countOnes (ps.getD 1 0) + countOnes (ps.getD 2 0) +
        countOnes (ps.getD 3 0) + countOnes (ps.getD 4 0) + countOnes (ps.getD 5 0) := by
  have e : white_units ps =
      ([ps.getD 0 0, ps.getD 1 0, ps.getD 2 0, ps.getD 3 0, ps.getD 4 0,
        ps.getD 5 0].foldr (fun p q => p ||| q) 0) := rfl
  rw [e, countOnes_foldr_disjoint]
  · simp
    omega
  · rw [List.pairwise_iff_getElem]
    intro i j hi hj hij
    simp only [List.length_cons, List.length_nil] at hi hj
    interval_cases i <;> interval_cases j <;>
      simp only [List.getElem_cons_zero, List.getElem_cons_succ] <;>
      exact hd _ (by decide) _ (by decide) (by decide)

theorem countOnes_black_units (ps : List Nat) (hd : PiecesDisjoint ps) :
    countOnes (black_units ps) =
      countOnes (ps.getD 6 0) + countOnes (ps.getD 7 0) + countOnes (ps.getD 8 0) +
        countOnes (ps.getD 9 0) + countOnes (ps.getD 10 0) + countOnes (ps.getD 11 0) := by
  have e : black_units ps =
      ([ps.getD 6 0, ps.getD 7 0, ps.getD 8 0, ps.getD 9 0, ps.getD 10 0,
        ps.getD 11 0].foldr (fun p q => p ||| q) 0) := rfl
  rw [e, countOnes_foldr_disjoint]
  · simp
    omega
  · rw [List.pairwise_iff_getElem]
    intro i j hi hj hij
    simp only [List.length_cons, List.length_nil] at hi hj
    interval_cases i <;> interval_cases j <;>
      simp only [List.getElem_cons_zero, List.getElem_cons_succ] <;>
      exact hd _ (by decide) _ (by decide) (by decide)

/-- The raw branch conditions of `insufficient_material`, as one
disjunction. -/
theorem insufficient_material_cases (b : Board) :
    insufficient_material b = true ↔
      ((countOnes (b.pos.units.getD 0 0) = 1 ∧ countOnes (b.pos.units.getD 1 0) = 1) ∨
       ((countOnes (b.pos.units.getD 0 0) = 2 ∧ countOnes (b.pos.piece.getD 1 0) = 1 ∧
         countOnes (b.pos.units.getD 1 0) = 1) ∨
        (countOnes (b.pos.units.getD 1 0) = 2 ∧ countOnes (b.pos.piece.getD 7 0) = 1 ∧
         countOnes (b.pos.units.getD 0 0) = 1)) ∨
       ((countOnes (b.pos.units.getD 0 0) = 2 ∧ countOnes (b.pos.piece.getD 2 0) = 1 ∧
         countOnes (b.pos.units.getD 1 0) = 1) ∨
        (countOnes (b.pos.units.getD 1 0) = 2 ∧ countOnes (b.pos.piece.getD 8 0) = 1 ∧
         countOnes (b.pos.units.getD 0 0) = 1)) ∨
       (countOnes (b.pos.units.getD 0 0) = 2 ∧ countOnes (b.pos.piece.getD 1 0) = 1 ∧
        countOnes (b.pos.units.getD 1 0) = 2 ∧ countOnes (b.pos.piece.getD 7 0) = 1) ∨
       ((countOnes (b.pos.units.getD 0 0) = 2 ∧ countOnes (b.pos.piece.getD 2 0) = 1 ∧
         countOnes (b.pos.units.getD 1 0) = 2 ∧ countOnes (b.pos.piece.getD 8 0) = 1) ∧
        (ROW (lsb (b.pos.piece.getD 2 0)) + COL (lsb (b.pos.piece.getD 2 0))) % 2 =
          (ROW (lsb (b.pos.piece.getD 8 0)) + COL (lsb (b.pos.piece.getD 8 0))) % 2)) := by
  simp only [insufficient_material]
  split_ifs with h1 h2 h3 h4 h5
  · exact iff_of_true rfl (Or.inl h1)
  · exact iff_of_true rfl (Or.inr (Or.inl h2))
  · exact iff_of_true rfl (Or.inr (Or.inr (Or.inl h3)))
  · exact iff_of_true rfl (Or.inr (Or.inr (Or.inr (Or.inl h4))))
  · rw [decide_eq_true_eq]
    constructor
    · intro hp
      exact Or.inr (Or.inr (Or.inr (Or.inr ⟨h5, hp⟩)))
    · rintro (h | h | h | h | ⟨_, hp⟩)
      · exact absurd h h1
      · exact absurd h h2
      · exact absurd h h3
      · exact absurd h h4
      · exact hp
  · apply iff_of_false (by simp)
    rintro (h | h | h | h | ⟨h', _⟩)
    · exact h1 h
    · exact h2 h
    · exact h3 h
    · exact h4 h
    · exact h5 h'

/-! ## C2 — the insufficient-material classes -/

/-- The claim's insufficient-material position classes, written from
the claim's words for comparison with the source function: king
versus king; king plus exactly one minor piece versus bare king
(either side); king plus one bishop each with the bishops on squares
of the same color parity.  The twelve bitboard indices follow the
embedding's piece order (0..4 white pawn/knight/bishop/rook/queen,
5 white king, 6..10 the black counterparts, 11 black king). -/
def spec_material_classes (b : Board) : Prop :=
  countOnes (b.pos.piece.getD 5 0) = 1 ∧ countOnes (b.pos.piece.getD 11 0) = 1 ∧
  ((countOnes (b.pos.piece.getD 0 0) = 0 ∧ countOnes (b.pos.piece.getD 1 0) = 0 ∧
    countOnes (b.pos.piece.getD 2 0) = 0 ∧ countOnes (b.pos.piece.getD 3 0) = 0 ∧
    countOnes (b.pos.piece.getD 4 0) = 0 ∧ countOnes (b.pos.piece.getD 6 0) = 0 ∧
    countOnes (b.pos.piece.getD 7 0) = 0 ∧ countOnes (b.pos.piece.getD 8 0) = 0 ∧
    countOnes (b.pos.piece.getD 9 0) = 0 ∧ countOnes (b.pos.piece.getD 10 0) = 0) ∨
   (countOnes (b.pos.piece.getD 1 0) + countOnes (b.pos.piece.getD 2 0) = 1 ∧
    countOnes (b.pos.piece.getD 0 0) = 0 ∧ countOnes (b.pos.piece.getD 3 0) = 0 ∧
    countOnes (b.pos.piece.getD 4 0) = 0 ∧ countOnes (b.pos.piece.getD 6 0) = 0 ∧
    countOnes (b.pos.piece.getD 7 0) = 0 ∧ countOnes (b.pos.piece.getD 8 0) = 0 ∧
    countOnes (b.pos.piece.getD 9 0) = 0 ∧ countOnes (b.pos.piece.getD 10 0) = 0) ∨
   (countOnes (b.pos.piece.getD 7 0) + countOnes (b.pos.piece.getD 8 0) = 1 ∧
    countOnes (b.pos.piece.getD 6 0) = 0 ∧ countOnes (b.pos.piece.getD 9 0) = 0 ∧
    countOnes (b.pos.piece.getD 10 0) = 0 ∧ countOnes (b.pos.piece.getD 0 0) = 0 ∧
    countOnes (b.pos.piece.getD 1 0) = 0 ∧ countOnes (b.pos.piece.getD 2 0) = 0 ∧
    countOnes (b.pos.piece.getD 3 0) = 0 ∧ countOnes (b.pos.piece.getD 4 0) = 0) ∨
   (countOnes (b.pos.piece.getD 2 0) = 1 ∧ countOnes (b.pos.piece.getD 0 0) = 0 ∧
    countOnes (b.pos.piece.getD 1 0) = 0 ∧ countOnes (b.pos.piece.getD 3 0) = 0 ∧
    countOnes (b.pos.piece.getD 4 0) = 0 ∧ countOnes (b.pos.piece.getD 8 0) = 1 ∧
    countOnes (b.pos.piece.getD 6 0) = 0 ∧ countOnes (b.pos.piece.getD 7 0) = 0 ∧
    countOnes (b.pos.piece.getD 9 0) = 0 ∧ countOnes (b.pos.piece.getD 10 0) = 0 ∧
    (ROW (lsb (b.pos.piece.getD 2 0)) + COL (lsb (b.pos.piece.getD 2 0))) % 2 =
      (ROW (lsb (b.pos.piece.getD 8 0)) + COL (lsb (b.pos.piece.getD 8 0))) % 2))

/-- The extra class the code accepts: king plus exactly one knight on
each side. -/
def knight_each_class (b : Board) : Prop :=
  countOnes (b.pos.piece.getD 5 0) = 1 ∧ countOnes (b.pos.piece.getD 11 0) = 1 ∧
  countOnes (b.pos.piece.getD 1 0) = 1 ∧ countOnes (b.pos.piece.getD 0 0) = 0 ∧
  countOnes (b.pos.piece.getD 2 0) = 0 ∧ countOnes (b.pos.piece.getD 3 0) = 0 ∧
  countOnes (b.pos.piece.getD 4 0) = 0 ∧ countOnes (b.pos.piece.getD 7 0) = 1 ∧
  countOnes (b.pos.piece.getD 6 0) = 0 ∧ countOnes (b.pos.piece.getD 8 0) = 0 ∧
  countOnes (b.pos.piece.getD 9 0) = 0 ∧ countOnes (b.pos.piece.getD 10 0) = 0

/-- A board whose occupancies are derived from pairwise-disjoint piece
bitboards and which has exactly one king per side. -/
def WellFormedMaterial (b : Board) : Prop :=
  b.pos.units.getD 0 0 = white_units b.pos.piece ∧
  b.pos.units.getD 1 0 = black_units b.pos.piece ∧
  PiecesDisjoint b.pos.piece ∧
  countOnes (b.pos.piece.getD 5 0) = 1 ∧ countOnes (b.pos.piece.getD 11 0) = 1

/-- A king and knight on each side: white Ka1 Nb1, black ka8 nb8. -/
def knkn_board : Board := (parse "kn6/8/8/8/8/8/8/KN6 w - - 0 1" z_zero).getD board_new

instance (ps : List Nat) : Decidable (PiecesDisjoint ps) := by
  unfold PiecesDisjoint
  infer_instance

instance (b : Board) : Decidable (WellFormedMaterial b) := by
  unfold WellFormedMaterial
  infer_instance

instance (b : Board) : Decidable (spec_material_classes b) := by
  unfold spec_material_classes
  infer_instance

instance (b : Board) : Decidable (knight_each_class b) := by
  unfold knight_each_class
  infer_instance

/-- C2 counterexample: `knkn_board` is well formed with halfmove clock
0, `insufficient_material` accepts it — and `set_state` declares the
draw by insufficient material — yet a knight each is in none of the
claim's classes, so the claimed "if and only if" fails. -/
theorem insufficient_material_knights_counterexample :
    WellFormedMaterial knkn_board ∧ knkn_board.state.half_moves < 100 ∧
    insufficient_material knkn_board = true ∧ ¬spec_material_classes knkn_board ∧
    set_state z_zero knkn_board [] = GameState.DrawByInsufficientMaterial := by
  refine ⟨by decide, by decide, by decide, by decide, by decide⟩

set_option maxHeartbeats 1000000 in
/-- C2 amended: on well-formed boards, `insufficient_material` returns
true exactly on the claim's classes EXTENDED BY king-plus-one-knight
versus king-plus-one-knight; in particular the bare-kings FEN yields
the draw by insufficient material (the check precedes move
generation in `set_state`). -/
theorem insufficient_material_iff (b : Board) (h : WellFormedMaterial b) :
    (insufficient_material b = true ↔ (spec_material_classes b ∨ knight_each_class b)) ∧
    insufficient_material bare_kings = true ∧
    set_state z_zero bare_kings [] = GameState.DrawByInsufficientMaterial := by
  obtain ⟨hu0, hu1, hd, hk5, hk11⟩ := h
  have cw := countOnes_white_units b.pos.piece hd
  have cb := countOnes_black_units b.pos.piece hd
  refine ⟨?_, by decide, by decide⟩
  rw [insufficient_material_cases, hu0, hu1, cw, cb]
  unfold spec_material_classes knight_each_class
  constructor
  · rintro (h | (h | h) | (h | h) | h | ⟨h, hp⟩)
    · exact Or.inl ⟨hk5, hk11, Or.inl (by omega)⟩
    · exact Or.inl ⟨hk5, hk11, Or.inr (Or.inl (by omega))⟩
    · exact Or.inl ⟨hk5, hk11, Or.inr (Or.inr (Or.inl (by omega)))⟩
    · exact Or.inl ⟨hk5, hk11, Or.inr (Or.inl (by omega))⟩
    · exact Or.inl ⟨hk5, hk11, Or.inr (Or.inr (Or.inl (by omega)))⟩
    · exact Or.inr ⟨hk5, hk11, by omega, by omega, by omega, by omega, by omega,
        by omega, by omega, by omega, by omega, by omega⟩
    · exact Or.inl ⟨hk5, hk11, Or.inr (Or.inr (Or.inr ⟨by omega, by omega, by omega,
        by omega, by omega, by omega, by omega, by omega, by omega, by omega, hp⟩))⟩
  · rintro (⟨h5, h11, (hc | hc | hc | hc)⟩ | hk)
    · exact Or.inl (by omega)
    · have h1 : countOnes (b.pos.piece.getD 1 0) = 1 ∨ countOnes (b.pos.piece.getD 2 0) = 1 := by
        omega
      rcases h1 with h1 | h1
      · exact Or.inr (Or.inl (Or.inl (by omega)))
      · exact Or.inr (Or.inr (Or.inl (Or.inl (by omega))))
    · have h1 : countOnes (b.pos.piece.getD 7 0) = 1 ∨ countOnes (b.pos.piece.getD 8 0) = 1 := by
        omega
      rcases h1 with h1 | h1
      · exact Or.inr (Or.inl (Or.inr (by omega)))
      · exact Or.inr (Or.inr (Or.inl (Or.inr (by omega))))
    · exact Or.inr (Or.inr (Or.inr (Or.inr ⟨by omega, hc.2.2.2.2.2.2.2.2.2.2⟩)))
    · exact Or.inr (Or.inr (Or.inr (Or.inl (by omega))))

/-- Witness for the amended C2 at the bare-kings board. -/
theorem insufficient_material_iff_witness :
    WellFormedMaterial bare_kings ∧
    (insufficient_material bare_kings = true ↔
      (spec_material_classes bare_kings ∨ knight_each_class bare_kings)) := by
  exact ⟨by decide, (insufficient_material_iff bare_kings (by decide)).1⟩

/-! ## C7 — malformed FEN input makes `fen::parse` panic -/

/-- C7 counterexample: the claim fails on the code.  `fen::parse`
returns a bare `Board` — there is no error-result channel — and
unwraps each whitespace-separated field, so the malformed (empty) FEN
string panics on the first missing field.  The embedding renders that
panic as `none`. -/
theorem parse_empty_input_panics : parse "" z_zero = none := rfl

/-- C7 amended: on any input with fewer than six whitespace-separated
fields, or with six fields whose halfmove or fullmove clock field does
not parse as a `u32`, `fen::parse` panics (an unwrap of a missing
field, or of a failed clock parse, embedded as `none`) rather than
returning an error result; no partial recovery is attempted. -/
theorem parse_missing_fields_panics (s : String) (zi : ZobristInfo)
    (h : (split_ws s.toList).length < 6 ∨
      ∃ w1 w2 w3 w4 w5 w6 rest,
        split_ws s.toList = w1 :: w2 :: w3 :: w4 :: w5 :: w6 :: rest ∧
        (parse_u32 w5 = none ∨ parse_u32 w6 = none)) :
    parse s zi = none := by
  rcases h with h | ⟨w1, w2, w3, w4, w5, w6, rest, hsp, hbad⟩
  · unfold parse
    rcases e : split_ws s.toList with _ | ⟨a, _ | ⟨b, _ | ⟨c, _ | ⟨d, _ | ⟨e5, _ | ⟨f, r⟩⟩⟩⟩⟩⟩
    · rfl
    · rfl
    · rfl
    · rfl
    · rfl
    · rfl
    · rw [e] at h
      simp only [List.length_cons] at h
      omega
  · have hpf : parse s zi = parse_fields zi w1 w2 w3 w4 w5 w6 := by
      unfold parse
      rw [hsp]
    rw [hpf]
    unfold parse_fields
    rcases hbad with h5 | h6
    · rw [h5]
    · cases hu : parse_u32 w5 with
      | none => rfl
      | some v => rw [h6]

/-- Witness for the amended C7: a three-field input panics, and so
does a six-field input whose halfmove clock is not a number. -/
theorem parse_missing_fields_panics_witness :
    parse "rnbq w -" z_zero = none ∧ parse "8/8/8/8/8/8/8/8 w - - x 1" z_zero = none :=
  ⟨parse_missing_fields_panics "rnbq w -" z_zero (Or.inl (by decide)),
   parse_missing_fields_panics "8/8/8/8/8/8/8/8 w - - x 1" z_zero
     (Or.inr ⟨"8/8/8/8/8/8/8/8", "w", "-", "-", "x", "1", [], by decide, Or.inl (by decide)⟩)⟩

/-! ## C8 — Zobrist hashes are a pure function of the position -/

/-- The mate position parsed under the demo tables. -/
def c8_board : Board := (parse mate_fen z_demo).getD board_new

/-- C8: two boards parsed from the same FEN under the same tables
carry identical (key, lock) pairs, and the modelled hash is a pure
function of piece placement, castling rights, en-passant file and
side to move — the clocks and any move history are irrelevant. -/
theorem zobrist_hash_deterministic (zi : ZobristInfo) (s : String) (b1 b2 : Board)
    (h1 : parse s zi = some b1) (h2 : parse s zi = some b2) :
    (b1.state.key = b2.state.key ∧ b1.state.lock = b2.state.lock) ∧
    (∀ zt : ZobristTables, ∀ c1 c2 : Board,
      c1.pos.piece = c2.pos.piece → c1.state.castling = c2.state.castling →
      ((c1.state.enpassant = noSq ∧ c2.state.enpassant = noSq) ∨
       (c1.state.enpassant ≠ noSq ∧ c2.state.enpassant ≠ noSq ∧
        COL c1.state.enpassant = COL c2.state.enpassant)) →
      c1.state.side = c2.state.side →
      gen_board_key zt c1 = gen_board_key zt c2) := by
  constructor
  · rw [h1] at h2
    injection h2 with h
    rw [h]
    exact ⟨rfl, rfl⟩
  · intro zt c1 c2 hp hc hep hs
    unfold gen_board_key
    rcases hep with ⟨e1, e2⟩ | ⟨e1, e2, ecol⟩
    · simp only [hp, hc, hs, e1, e2]
    · simp only [hp, hc, hs, ecol, if_pos e1, if_pos e2]

/-- Witness for C8: the mate position hashes identically to itself
across two parses, and to the same placement with halfmove clock 99 —
the clock does not enter the hash. -/
theorem zobrist_hash_deterministic_witness :
    parse mate_fen z_demo = some c8_board ∧
    c8_board.state.key = c8_board.state.key ∧ c8_board.state.lock = c8_board.state.lock ∧
    gen_board_key z_demo.key clock99 = gen_board_key z_demo.key mate_before := by
  have h := zobrist_hash_deterministic z_demo mate_fen c8_board c8_board (by decide) (by decide)
  have hpure := h.2 z_demo.key clock99 mate_before (by decide) (by decide)
    (Or.inl ⟨by decide, by decide⟩) (by decide)
  exact ⟨by decide, h.1.1, h.1.2, hpure⟩

/-! ## C6 — FEN round trip: splitting and character lemmas -/

theorem split_ws_core_word (rest : List Char) :
    ∀ (w cur : List Char), (∀ c ∈ w, isWs c = false) → (cur ≠ [] ∨ w ≠ []) →
      split_ws_core (w ++ ' ' :: rest) cur =
        String.mk (cur.reverse ++ w) :: split_ws_core rest [] := by
  intro w
  induction w with
  | nil =>
    intro cur _ hne
    have hcur : cur ≠ [] := by tauto
    have h2 : cur.isEmpty = false := by simpa [List.isEmpty_iff] using hcur
    simp [split_ws_core, h2, isWs]
  | cons c w ih =>
    intro cur hw _
    have hc : isWs c = false := hw c (by simp)
    have e : split_ws_core ((c :: w) ++ ' ' :: rest) cur =
        split_ws_core (w ++ ' ' :: rest) (c :: cur) := by
      simp [split_ws_core, hc]
    rw [e, ih (c :: cur) (fun x hx => hw x (by simp [hx])) (Or.inl (by simp))]
    simp

theorem split_ws_core_last :
    ∀ (w cur : List Char), (∀ c ∈ w, isWs c = false) → (cur ≠ [] ∨ w ≠ []) →
      split_ws_core w cur = [String.mk (cur.reverse ++ w)] := by
  intro w
  induction w with
  | nil =>
    intro cur _ hne
    have hcur : cur ≠ [] := by tauto
    have h2 : cur.isEmpty = false := by simpa [List.isEmpty_iff] using hcur
    simp [split_ws_core, h2, isWs]
  | cons c w ih =>
    intro cur hw _
    have hc : isWs c = false := hw c (by simp)
    have e : split_ws_core (c :: w) cur = split_ws_core w (c :: cur) := by
      simp [split_ws_core, hc]
    rw [e, ih (c :: cur) (fun x hx => hw x (by simp [hx])) (Or.inl (by simp))]
    simp

theorem piece_from_to_char : ∀ p < 12, piece_from_char (piece_to_char p) = some p := by decide

theorem piece_char_facts : ∀ p < 12, piece_to_char p ≠ '/' ∧ (piece_to_char p).isDigit = false ∧
    (piece_to_char p).isAlpha = true ∧ isWs (piece_to_char p) = false := by decide

theorem digit_char_facts : ∀ e < 10, digitCh e ≠ '/' ∧ (digitCh e).isDigit = true ∧
    isWs (digitCh e) = false ∧ (digitCh e).toNat - '0'.toNat = e := by decide

theorem pp_step_digit (ps : List Nat) (sq : Nat) (c : Char) (h1 : c ≠ '/')
    (h2 : c.isDigit = true) :
    pp_step (ps, sq) c = (ps, sq + (c.toNat - '0'.toNat)) := by
  unfold pp_step
  rw [if_neg h1, if_pos h2]

theorem pp_step_piece (ps : List Nat) (sq : Nat) (p : Nat) (hp : p < 12) :
    pp_step (ps, sq) (piece_to_char p) = (ps.set p (bbSet (ps.getD p 0) sq), sq + 1) := by
  obtain ⟨h1, h2, h3, _⟩ := piece_char_facts p hp
  unfold pp_step
  rw [if_neg h1, if_neg (by simp [h2]), if_pos h3, piece_from_to_char p hp]

theorem digits_to_nat_append_digit (xs : List Char) (c : Char) :
    digits_to_nat (xs ++ [c]) = digits_to_nat xs * 10 + (c.toNat - '0'.toNat) := by
  unfold digits_to_nat
  rw [List.foldl_append]
  rfl

theorem nat_chars_go_spec : ∀ fuel n, n < fuel →
    nat_chars_go fuel n ≠ [] ∧ (∀ c ∈ nat_chars_go fuel n, c.isDigit = true ∧ isWs c = false) ∧
      digits_to_nat (nat_chars_go fuel n) = n := by
  intro fuel
  induction fuel with
  | zero => intro n h; exact absurd h (by omega)
  | succ fuel ih =>
    intro n h
    by_cases h10 : n < 10
    · have hd := digit_char_facts n (by omega)
      unfold nat_chars_go
      rw [if_pos h10]
      refine ⟨by simp, ?_, ?_⟩
      · intro c hc
        have : c = digitCh n := by simpa using hc
        subst this
        exact ⟨hd.2.1, hd.2.2.1⟩
      · show digits_to_nat ([] ++ [digitCh n]) = n
        rw [digits_to_nat_append_digit, hd.2.2.2]
        simp [digits_to_nat]
    · have hrec := ih (n / 10) (by omega)
      have hd := digit_char_facts (n % 10) (by omega)
      unfold nat_chars_go
      rw [if_neg h10]
      refine ⟨by simp, ?_, ?_⟩
      · intro c hc
        rcases List.mem_append.mp hc with hc | hc
        · exact hrec.2.1 c hc
        · have : c = digitCh (n % 10) := by simpa using hc
          subst this
          exact ⟨hd.2.1, hd.2.2.1⟩
      · rw [digits_to_nat_append_digit, hrec.2.2, hd.2.2.2]
        omega

theorem parse_u32_nat_to_chars (n : Nat) (h : n < 2 ^ 32) :
    parse_u32 (String.mk (nat_to_chars n)) = some n := by
  obtain ⟨hne, hdig, hval⟩ := nat_chars_go_spec (n + 1) n (by omega)
  unfold parse_u32
  have htl : (String.mk (nat_to_chars n)).toList = nat_to_chars n := rfl
  rw [htl]
  have h1 : (nat_to_chars n).isEmpty = false := by
    simpa [List.isEmpty_iff] using hne
  have h2 : (nat_to_chars n).all Char.isDigit = true := by
    rw [List.all_eq_true]
    intro c hc
    exact (hdig c hc).1
  have h3 : digits_to_nat (nat_to_chars n) = n := hval
  simp [h1, h2, h3]
  omega

/-! ## C6 — parsing the generated placement field -/

/-- The effect of parsing a placement fragment: each listed square
that holds a piece is set into that piece's bitboard. -/
def place_range (b : Board) (ps : List Nat) (sqs : List Nat) : List Nat :=
  sqs.foldl (fun acc sq =>
    match find_piece b sq with
    | some p => acc.set p (bbSet (acc.getD p 0) sq)
    | none => acc) ps

theorem place_range_append (b : Board) (ps : List Nat) (l1 l2 : List Nat) :
    place_range b ps (l1 ++ l2) = place_range b (place_range b ps l1) l2 :=
  List.foldl_append _ _ _ _

theorem find_piece_lt (b : Board) (sq p : Nat) (h : find_piece b sq = some p) : p < 12 := by
  unfold find_piece at h
  have hm := List.mem_of_find?_eq_some h
  simpa using hm

theorem find_piece_bit (b : Board) (sq p : Nat) (h : find_piece b sq = some p) :
    bbGet (b.pos.piece.getD p 0) sq = true := by
  unfold find_piece at h
  simpa using List.find?_some h

theorem parse_rank_go (b : Board) (r : Nat) :
    ∀ k f e ps, k + f = 8 → e ≤ f →
      List.foldl pp_step (ps, r * 8 + f - e) (rank_go b r k e) =
        (place_range b ps (List.range' (r * 8 + f) k), r * 8 + 8) := by
  intro k
  induction k with
  | zero =>
    intro f e ps hkf he
    unfold rank_go
    by_cases he0 : e = 0
    · subst he0
      have hh : r * 8 + f - 0 = r * 8 + 8 := by omega
      rw [if_pos rfl, hh]
      rfl
    · rw [if_neg he0]
      have hd := digit_char_facts e (by omega)
      simp only [List.foldl_cons, List.foldl_nil]
      rw [pp_step_digit _ _ _ hd.1 hd.2.1, hd.2.2.2]
      have hh : r * 8 + f - e + e = r * 8 + 8 := by omega
      rw [hh]
      rfl
  | succ k ih =>
    intro f e ps hkf he
    have hf8 : 8 - (k + 1) = f := by omega
    unfold rank_go
    rw [hf8]
    cases hfp : find_piece b (SQ r f) with
    | some p =>
      have hp : p < 12 := find_piece_lt _ _ _ hfp
      have hfp' : find_piece b (r * 8 + f) = some p := hfp
      rw [List.foldl_append]
      have hflush : List.foldl pp_step (ps, r * 8 + f - e) (if e = 0 then [] else [digitCh e]) =
          (ps, r * 8 + f) := by
        by_cases he0 : e = 0
        · subst he0
          rw [if_pos rfl]
          rfl
        · rw [if_neg he0]
          have hd := digit_char_facts e (by omega)
          simp only [List.foldl_cons, List.foldl_nil]
          rw [pp_step_digit _ _ _ hd.1 hd.2.1, hd.2.2.2]
          have hh : r * 8 + f - e + e = r * 8 + f := by omega
          rw [hh]
      rw [hflush, List.foldl_cons, pp_step_piece ps (r * 8 + f) p hp]
      have harith : r * 8 + f + 1 = r * 8 + (f + 1) - 0 := by omega
      rw [harith, ih (f + 1) 0 _ (by omega) (by omega)]
      rw [List.range'_succ]
      have hstep : place_range b ps ((r * 8 + f) :: List.range' (r * 8 + f + 1) k) =
          place_range b (ps.set p (bbSet (ps.getD p 0) (r * 8 + f)))
            (List.range' (r * 8 + f + 1) k) := by
        unfold place_range
        rw [List.foldl_cons, hfp']
      rw [hstep]
      have hg : r * 8 + (f + 1) = r * 8 + f + 1 := rfl
      rw [hg]
    | none =>
      have hfp' : find_piece b (r * 8 + f) = none := hfp
      have harith : r * 8 + f - e = r * 8 + (f + 1) - (e + 1) := by omega
      rw [harith, ih (f + 1) (e + 1) ps (by omega) (by omega)]
      rw [List.range'_succ]
      have hstep : place_range b ps ((r * 8 + f) :: List.range' (r * 8 + f + 1) k) =
          place_range b ps (List.range' (r * 8 + f + 1) k) := by
        unfold place_range
        rw [List.foldl_cons, hfp']
      rw [hstep]
      have hg : r * 8 + (f + 1) = r * 8 + f + 1 := rfl
      rw [hg]

theorem pp_step_slash (st : List Nat × Nat) : pp_step st '/' = st := rfl

theorem place_range_cons_none (b : Board) (ps : List Nat) (s : Nat) (rest : List Nat)
    (hf : find_piece b s = none) :
    place_range b ps (s :: rest) = place_range b ps rest := by
  unfold place_range
  rw [List.foldl_cons, hf]

theorem place_range_cons_some (b : Board) (ps : List Nat) (s : Nat) (rest : List Nat) (p : Nat)
    (hf : find_piece b s = some p) :
    place_range b ps (s :: rest) = place_range b (ps.set p (bbSet (ps.getD p 0) s)) rest := by
  unfold place_range
  rw [List.foldl_cons, hf]

theorem parse_placement (b : Board) (ps : List Nat) :
    List.foldl pp_step (ps, 0) (placement_chars b) = (place_range b ps (List.range 64), 64) := by
  have h0 := parse_rank_go b 0 8 0 0 ps (by norm_num) (by norm_num)
  norm_num at h0
  have h1 := parse_rank_go b 1 8 0 0 (place_range b ps (List.range' 0 8)) (by norm_num) (by norm_num)
  norm_num at h1
  have h2 := parse_rank_go b 2 8 0 0 (place_range b (place_range b ps (List.range' 0 8))
    (List.range' 8 8)) (by norm_num) (by norm_num)
  norm_num at h2
  have h3 := parse_rank_go b 3 8 0 0 (place_range b (place_range b (place_range b ps
    (List.range' 0 8)) (List.range' 8 8)) (List.range' 16 8)) (by norm_num) (by norm_num)
  norm_num at h3
  have h4 := parse_rank_go b 4 8 0 0 (place_range b (place_range b (place_range b (place_range b
    ps (List.range' 0 8)) (List.range' 8 8)) (List.range' 16 8)) (List.range' 24 8))
    (by norm_num) (by norm_num)
  norm_num at h4
  have h5 := parse_rank_go b 5 8 0 0 (place_range b (place_range b (place_range b (place_range b
    (place_range b ps (List.range' 0 8)) (List.range' 8 8)) (List.range' 16 8))
    (List.range' 24 8)) (List.range' 32 8)) (by norm_num) (by norm_num)
  norm_num at h5
  have h6 := parse_rank_go b 6 8 0 0 (place_range b (place_range b (place_range b (place_range b
    (place_range b (place_range b ps (List.range' 0 8)) (List.range' 8 8)) (List.range' 16 8))
    (List.range' 24 8)) (List.range' 32 8)) (List.range' 40 8)) (by norm_num) (by norm_num)
  norm_num at h6
  have h7 := parse_rank_go b 7 8 0 0 (place_range b (place_range b (place_range b (place_range b
    (place_range b (place_range b (place_range b ps (List.range' 0 8)) (List.range' 8 8))
    (List.range' 16 8)) (List.range' 24 8)) (List.range' 32 8)) (List.range' 40 8))
    (List.range' 48 8)) (by norm_num) (by norm_num)
  norm_num at h7
  unfold placement_chars
  rw [List.foldl_append, h0, List.foldl_cons, pp_step_slash,
      List.foldl_append, h1, List.foldl_cons, pp_step_slash,
      List.foldl_append, h2, List.foldl_cons, pp_step_slash,
      List.foldl_append, h3, List.foldl_cons, pp_step_slash,
      List.foldl_append, h4, List.foldl_cons, pp_step_slash,
      List.foldl_append, h5, List.foldl_cons, pp_step_slash,
      List.foldl_append, h6, List.foldl_cons, pp_step_slash, h7]
  have hsplit : List.range 64 =
      List.range' 0 8 ++ List.range' 8 8 ++ List.range' 16 8 ++ List.range' 24 8 ++
      List.range' 32 8 ++ List.range' 40 8 ++ List.range' 48 8 ++ List.range' 56 8 := by decide
  rw [hsplit, place_range_append, place_range_append, place_range_append, place_range_append,
      place_range_append, place_range_append, place_range_append]

theorem place_range_length (b : Board) (sqs : List Nat) :
    ∀ ps : List Nat, (place_range b ps sqs).length = ps.length := by
  induction sqs with
  | nil => intro ps; rfl
  | cons s rest ih =>
    intro ps
    cases hf : find_piece b s with
    | none =>
      rw [place_range_cons_none b ps s rest hf]
      exact ih ps
    | some p =>
      rw [place_range_cons_some b ps s rest p hf]
      have h2 := ih (ps.set p (bbSet (ps.getD p 0) s))
      rw [List.length_set] at h2
      exact h2

theorem getD_set_self (l : List Nat) (n a : Nat) (h : n < l.length) :
    (l.set n a).getD n 0 = a := by
  simp [List.getD, List.getElem?_set_self, h]

theorem getD_set_other (l : List Nat) (n m a : Nat) (h : n ≠ m) :
    (l.set n a).getD m 0 = l.getD m 0 := by
  simp [List.getD, List.getElem?_set_ne, h]

theorem place_range_testBit (b : Board) (sqs : List Nat) :
    ∀ (ps : List Nat) (p i : Nat), ps.length = 12 → p < 12 →
      (((place_range b ps sqs).getD p 0).testBit i = true ↔
        ((ps.getD p 0).testBit i = true ∨ (i ∈ sqs ∧ find_piece b i = some p))) := by
  induction sqs with
  | nil =>
    intro ps p i _ _
    simp [place_range]
  | cons s rest ih =>
    intro ps p i hlen hp
    cases hf : find_piece b s with
    | none =>
      rw [place_range_cons_none b ps s rest hf, ih ps p i hlen hp]
      constructor
      · rintro (h | ⟨hm, hfp⟩)
        · exact Or.inl h
        · exact Or.inr ⟨List.mem_cons_of_mem _ hm, hfp⟩
      · rintro (h | ⟨hm, hfp⟩)
        · exact Or.inl h
        · rcases List.mem_cons.mp hm with rfl | hm2
          · rw [hf] at hfp
            cases hfp
          · exact Or.inr ⟨hm2, hfp⟩
    | some q =>
      rw [place_range_cons_some b ps s rest q hf,
          ih (ps.set q (bbSet (ps.getD q 0) s)) p i (by rw [List.length_set]; exact hlen) hp]
      by_cases hpq : p = q
      · subst hpq
        rw [getD_set_self ps p _ (by rw [hlen]; exact hp)]
        have hbb : (bbSet (ps.getD p 0) s).testBit i = true ↔
            ((ps.getD p 0).testBit i = true ∨ i = s) := by
          unfold bbSet
          rw [Nat.testBit_or]
          simp [Nat.one_shiftLeft, Nat.testBit_two_pow]
          tauto
        rw [hbb]
        constructor
        · rintro ((h | h) | ⟨hm, hfp⟩)
          · exact Or.inl h
          · refine Or.inr ⟨by simp [h], ?_⟩
            rw [h]
            exact hf
          · exact Or.inr ⟨List.mem_cons_of_mem _ hm, hfp⟩
        · rintro (h | ⟨hm, hfp⟩)
          · exact Or.inl (Or.inl h)
          · rcases List.mem_cons.mp hm with rfl | hm2
            · exact Or.inl (Or.inr rfl)
            · exact Or.inr ⟨hm2, hfp⟩
      · rw [getD_set_other ps q p _ (fun hh => hpq hh.symm)]
        constructor
        · rintro (h | ⟨hm, hfp⟩)
          · exact Or.inl h
          · exact Or.inr ⟨List.mem_cons_of_mem _ hm, hfp⟩
        · rintro (h | ⟨hm, hfp⟩)
          · exact Or.inl h
          · rcases List.mem_cons.mp hm with rfl | hm2
            · rw [hf] at hfp
              injection hfp with hh
              exact absurd hh.symm hpq
            · exact Or.inr ⟨hm2, hfp⟩

theorem find?_eq_some_of_unique {α : Type} (l : List α) (pred : α → Bool) (a : α)
    (ha : a ∈ l) (hpa : pred a = true) (huniq : ∀ x ∈ l, pred x = true → x = a) :
    l.find? pred = some a := by
  induction l with
  | nil => cases ha
  | cons x xs ih =>
    by_cases hx : pred x = true
    · have hxa : x = a := huniq x (by simp) hx
      subst hxa
      rw [List.find?_cons_of_pos _ hx]
    · rcases List.mem_cons.mp ha with rfl | hmem
      · exact absurd hpa hx
      · rw [List.find?_cons_of_neg _ (by simp [hx])]
        exact ih hmem (fun y hy hpy => huniq y (List.mem_cons_of_mem _ hy) hpy)

theorem find_piece_eq_some (b : Board) (i p : Nat) (hp : p < 12)
    (hbit : (b.pos.piece.getD p 0).testBit i = true) (hd : PiecesDisjoint b.pos.piece) :
    find_piece b i = some p := by
  unfold find_piece
  apply find?_eq_some_of_unique
  · simp [hp]
  · exact hbit
  · intro q hq hpq
    by_contra hne
    have h0 := hd q hq p (by simp [hp]) hne
    have hb2 : ((b.pos.piece.getD q 0) &&& (b.pos.piece.getD p 0)).testBit i = true := by
      unfold bbGet at hpq
      rw [Nat.testBit_and, hpq, hbit]
      rfl
    rw [h0, Nat.zero_testBit] at hb2
    cases hb2

theorem place_range_full (b : Board)
    (hlen : b.pos.piece.length = 12)
    (hbound : ∀ p ∈ List.range 12, b.pos.piece.getD p 0 < 2 ^ 64)
    (hd : PiecesDisjoint b.pos.piece) :
    place_range b (List.replicate 12 0) (List.range 64) = b.pos.piece := by
  apply List.ext_getElem
  · rw [place_range_length]
    simp [hlen]
  · intro p h1 h2
    have hp12 : p < 12 := by rw [hlen] at h2; exact h2
    have hlhs : (place_range b (List.replicate 12 0) (List.range 64))[p] =
        (place_range b (List.replicate 12 0) (List.range 64)).getD p 0 := by
      rw [List.getD_eq_getElem?_getD, List.getElem?_eq_getElem h1]
      rfl
    have hrhs : b.pos.piece[p] = b.pos.piece.getD p 0 := by
      rw [List.getD_eq_getElem?_getD, List.getElem?_eq_getElem h2]
      rfl
    rw [hlhs, hrhs]
    apply Nat.eq_of_testBit_eq
    intro i
    have hiff := place_range_testBit b (List.range 64) (List.replicate 12 0) p i (by simp) hp12
    have hrep : (List.replicate 12 0 : List Nat).getD p 0 = 0 := by
      have hpl : p < (List.replicate 12 (0 : Nat)).length := by simp [hp12]
      rw [List.getD_eq_getElem?_getD, List.getElem?_eq_getElem hpl]
      show (List.replicate 12 (0 : Nat))[p] = 0
      interval_cases p <;> rfl
    rw [hrep, Nat.zero_testBit] at hiff
    simp only [Bool.false_eq_true, false_or, List.mem_range] at hiff
    by_cases hbit : (b.pos.piece.getD p 0).testBit i = true
    · have hi64 : i < 64 := by
        by_contra hge
        have hlt : b.pos.piece.getD p 0 < 2 ^ i :=
          lt_of_lt_of_le (hbound p (by simp [hp12])) (Nat.pow_le_pow_right (by omega) (by omega))
        rw [Nat.testBit_lt_two_pow hlt] at hbit
        cases hbit
      rw [hbit, hiff.mpr ⟨hi64, find_piece_eq_some b i p hp12 hbit hd⟩]
    · have hbit' : (b.pos.piece.getD p 0).testBit i = false := by
        simpa using hbit
      have hlf : ((place_range b (List.replicate 12 0) (List.range 64)).getD p 0).testBit i =
          false := by
        by_contra hh
        have htrue : ((place_range b (List.replicate 12 0)
            (List.range 64)).getD p 0).testBit i = true := by
          simpa using hh
        obtain ⟨hi64, hfp⟩ := hiff.mp htrue
        have hb := find_piece_bit b i p hfp
        unfold bbGet at hb
        rw [hb] at hbit'
        cases hbit'
      rw [hlf, hbit']

/-! ## C10 — `Game::save` signals failure, not success -/

/-- C10: for every game and filename, `Game::save` returns `true`
exactly when `pgn::save` returned an error (the file could not be
created or written), and `false` when the write succeeded — the
boolean signals failure. -/
theorem game_save_signals_failure (r : Except String Bool) :
    (game_save r = true ↔ ∃ e, r = Except.error e) ∧
    (game_save r = false ↔ ∃ v, r = Except.ok v) := by
  cases r <;> simp [game_save]

/-! ## C9 — the engine's best-move string and its promotion letter -/

/-- Whatever `EngineComm::best_move` delivers is exactly four
characters: the final slice `best_move[0..4]` truncates every reply
word, so a promotion letter can never reach the game manager. -/
theorem best_move_len (buf : String) (m : Bool) (s : String) (h : best_move buf m = some s) :
    s.length = 4 := by
  have hword : ∀ hay ind, best_move_word hay ind = some s → s.length = 4 := by
    intro hay ind hw
    simp only [best_move_word] at hw
    split at hw
    · rename_i w hhead
      split at hw
      · exact absurd hw (by simp)
      · rename_i hlen
        obtain rfl : String.mk (w.toList.take 4) = s := by simpa using hw
        show (w.toList.take 4).length = 4
        rw [List.length_take]
        omega
    · exact absurd hw (by simp)
  simp only [best_move] at h
  split at h
  · exact absurd h (by simp)
  · split at h
    · exact hword _ _ h
    · exact absurd h (by simp)

/-- C9: the claim fails on the code.  `EngineComm::best_move` returns
`best_move[0..4]`, so a five-character promotion reply loses its
promotion letter before `GameManager::play` can look for it: on the
reply buffer "info score cp 21 pv e7e8q\nbestmove e7e8q\n" the
delivered string is "e7e8", not "e7e8q", while a four-character reply
is passed through unchanged. -/
theorem best_move_drops_promotion_letter :
    best_move "info score cp 21 pv e7e8q\nbestmove e7e8q\n" false = some "e7e8" ∧
    best_move "info depth 10 score cp 34\nbestmove e2e4 ponder e7e5\n" false = some "e2e4" := by
  constructor <;> decide

/-! ## C5 — `Game::make_move` error handling -/

/-- C5: an illegal move is reported by a `false` return (never a
crash: the embedding is a total function); on `false` the game is
returned unchanged, and on `true` exactly the move and the resulting
board are appended and the state is recomputed against the prior
history, all other fields untouched. -/
theorem make_move_reports_illegal (zi : ZobristInfo) (g : Game) (mv : Move) :
    ((Game.make_move zi g mv).1 = false → (Game.make_move zi g mv).2 = g) ∧
    (∀ current, g.boards.getLast? = some current →
      (moves_make zi current mv = none → (Game.make_move zi g mv).1 = false) ∧
      (∀ next, moves_make zi current mv = some next →
        (Game.make_move zi g mv).1 = true ∧
        (Game.make_move zi g mv).2 =
          { g with moves := g.moves ++ [mv],
                   state := set_state zi next g.boards,
                   boards := g.boards ++ [next] })) := by
  rcases hl : g.boards.getLast? with _ | current
  · have e : Game.make_move zi g mv = (false, g) := by
      simp only [Game.make_move, hl]
    rw [e]
    exact ⟨fun _ => rfl, fun c hc => by cases hc⟩
  · rcases hm : moves_make zi current mv with _ | next
    · have e : Game.make_move zi g mv = (false, g) := by
        simp only [Game.make_move, hl, hm]
      rw [e]
      refine ⟨fun _ => rfl, fun c hc => ?_⟩
      obtain rfl : current = c := by injection hc
      refine ⟨fun _ => rfl, fun next2 hnext => ?_⟩
      rw [hm] at hnext
      cases hnext
    · have e : Game.make_move zi g mv =
          (true, { g with moves := g.moves ++ [mv],
                          state := set_state zi next g.boards,
                          boards := g.boards ++ [next] }) := by
        simp only [Game.make_move, hl, hm]
      rw [e]
      refine ⟨fun hfalse => absurd hfalse (by simp), fun c hc => ?_⟩
      obtain rfl : current = c := by injection hc
      refine ⟨fun hnone => ?_, fun next2 hnext => ?_⟩
      · rw [hm] at hnone
        cases hnone
      · rw [hm] at hnext
        obtain rfl : next = next2 := by injection hnext
        exact ⟨rfl, rfl⟩

/-- Witness for C5: in the mated position after Rc8, Black's try Ka7
is rejected with `false` and the game is unchanged; Rc8 itself is
accepted with `true`. -/
theorem make_move_reports_illegal_witness :
    (Game.make_move z_zero mate_game_after ka7_move).1 = false ∧
    (Game.make_move z_zero mate_game_after ka7_move).2 = mate_game_after ∧
    (Game.make_move z_zero mate_game rc8_move).1 = true := by
  have h := make_move_reports_illegal z_zero mate_game_after ka7_move
  have hfalse := (h.2 mate_after (by decide)).1 (by decide)
  have hleg := ((make_move_reports_illegal z_zero mate_game rc8_move).2 mate_before
    (by decide)).2 mate_after (by decide)
  exact ⟨hfalse, h.1 hfalse, hleg.1⟩

/-! ## C4 — the fifty-move rule check and its precedence -/

/-- C4: a halfmove clock of at least 100 yields the fifty-move draw
and, being the first check, takes precedence over every other
outcome; a clock of exactly 99 with a legal move and no other
terminal condition is Ongoing; and any non-pawn, non-capture move
made from a clock of 99 produces a board classified as the fifty-move
draw. -/
theorem set_state_fifty_move (zi : ZobristInfo) (b : Board) (hist : List Board) :
    (100 ≤ b.state.half_moves → set_state zi b hist = GameState.DrawByFiftyMoveRule) ∧
    (b.state.half_moves = 99 → insufficient_material b = false → legal_moves zi b ≠ [] →
      repetition_count hist b.state.key b.state.lock < 3 →
      set_state zi b hist = GameState.Ongoing) ∧
    (∀ mv b2 hist2, b.state.half_moves = 99 → mv.piece % 6 ≠ 0 → mv.capture = false →
      moves_make zi b mv = some b2 → set_state zi b2 hist2 = GameState.DrawByFiftyMoveRule) := by
  have hfifty : ∀ (c : Board) (h2 : List Board), 100 ≤ c.state.half_moves →
      set_state zi c h2 = GameState.DrawByFiftyMoveRule := by
    intro c h2 hc
    unfold set_state
    rw [if_pos hc]
  refine ⟨hfifty b hist, ?_, ?_⟩
  · intro h99 hins hlegal hrep
    have hlen : ¬(legal_moves zi b).length = 0 := by
      simpa [List.length_eq_zero] using hlegal
    unfold set_state
    rw [if_neg (by omega), if_neg (by simp [hins]), if_neg hlen, if_neg (by omega)]
  · intro mv b2 hist2 h99 hp hc hm
    have hb2 : b2.state.half_moves = 100 := by
      simp only [moves_make] at hm
      split at hm
      · cases hm
      · obtain rfl : make_applied zi b mv = b2 := by injection hm
        show (if mv.piece % 6 = 0 ∨ mv.capture = true then 0 else b.state.half_moves + 1) = 100
        rw [if_neg (by simp [hp, hc])]
        omega
    exact hfifty b2 hist2 (by omega)

/-- Witness for C4: the mate position with clock 99 is Ongoing; the
rook move Rc3 from it reaches clock 100 and flips the state to the
fifty-move draw, as does the same position parsed with clock 100. -/
theorem set_state_fifty_move_witness :
    clock99.state.half_moves = 99 ∧ insufficient_material clock99 = false ∧
    legal_moves z_zero clock99 ≠ [] ∧
    set_state z_zero clock99 [] = GameState.Ongoing ∧
    moves_make z_zero clock99 rc3_move = some clock99_after ∧
    set_state z_zero clock99_after [] = GameState.DrawByFiftyMoveRule ∧
    100 ≤ clock100.state.half_moves ∧
    set_state z_zero clock100 [] = GameState.DrawByFiftyMoveRule := by
  have h := set_state_fifty_move z_zero clock99 ([] : List Board)
  refine ⟨by decide, by decide, by decide, ?_, by decide, ?_, by decide, ?_⟩
  · exact h.2.1 (by decide) (by decide) (by decide) (by decide)
  · exact h.2.2 rc3_move clock99_after [] (by decide) (by decide) (by decide) (by decide)
  · exact (set_state_fifty_move z_zero clock100 []).1 (by decide)

/-! ## C3 — checkmate and stalemate on zero legal moves -/

/-- C3: when the fifty-move and insufficient-material checks do not
apply and the legality filter leaves zero moves, `set_state` returns
a win by checkmate for the side that just moved (`xside`) when it
gives check, and the stalemate draw otherwise; in particular, after
Rc8 in the spec's test position Black has zero legal replies and is
in check, so the game state becomes White's win by checkmate. -/
theorem set_state_checkmate_stalemate (zi : ZobristInfo) (b : Board) (hist : List Board)
    (h1 : b.state.half_moves < 100) (h2 : insufficient_material b = false)
    (h3 : legal_moves zi b = []) :
    (is_in_check b b.state.xside = true →
      set_state zi b hist =
        (if b.state.xside = PieceColor.Light then GameState.LightWinByCheckmate
         else GameState.DarkWinByCheckmate)) ∧
    (is_in_check b b.state.xside = false → set_state zi b hist = GameState.DrawByStalemate) ∧
    (Game.make_move z_zero mate_game rc8_move).1 = true ∧
    mate_game_after.state = GameState.LightWinByCheckmate ∧
    legal_moves z_zero mate_after = [] ∧
    is_in_check mate_after PieceColor.Light = true := by
  have hbase : set_state zi b hist =
      (if is_in_check b b.state.xside then
        (if b.state.xside = PieceColor.Light then GameState.LightWinByCheckmate
         else GameState.DarkWinByCheckmate)
       else GameState.DrawByStalemate) := by
    unfold set_state
    rw [if_neg (by omega), if_neg (by simp [h2]), if_pos (by simp [h3])]
  refine ⟨?_, ?_, by decide, by decide, by decide, by decide⟩
  · intro hch
    rw [hbase, if_pos hch]
  · intro hch
    rw [hbase, if_neg (by simp [hch])]

/-- Witness for C3: the board after Rc8, with the pre-move board as
history, satisfies the hypotheses and is classified as White's win by
checkmate. -/
theorem set_state_checkmate_stalemate_witness :
    mate_after.state.half_moves < 100 ∧ insufficient_material mate_after = false ∧
    legal_moves z_zero mate_after = [] ∧
    set_state z_zero mate_after [mate_before] = GameState.LightWinByCheckmate := by
  have h := (set_state_checkmate_stalemate z_zero mate_after [mate_before]
    (by decide) (by decide) (by decide)).1 (by decide)
  exact ⟨by decide, by decide, by decide, h.trans (by decide)⟩

/-! ## C1 — threefold repetition is declared one occurrence late -/

/-- C1: the claim fails on the code.  `set_state` scans only the
stored history (the current board is pushed after the call) and
declares the draw when that scan alone reaches three matches, so the
draw needs three prior occurrences plus the current one.  Replaying a
king shuffle from the mate position: after two full four-ply cycles
the position stands on the board for the third time — the claim's
draw condition, current plus two prior — yet the state is Ongoing;
only after a third cycle (fourth total occurrence) does the code
declare the threefold-repetition draw. -/
theorem threefold_declared_on_fourth_occurrence :
    c1_after8.state = GameState.Ongoing ∧
    repetition_count c1_after8.boards c1_board8.state.key c1_board8.state.lock = 3 ∧
    (play z_demo c1_game (c1_cycle ++ c1_cycle ++ c1_cycle)).state =
      GameState.DrawByThreefoldRepetition := by
  refine ⟨by decide, by decide, by decide⟩

theorem mk_toList (l : List Char) : (String.mk l).toList = l := rfl

theorem rank_go_no_ws (b : Board) (r : Nat) :
    ∀ k e, e + k ≤ 8 → ∀ c ∈ rank_go b r k e, isWs c = false := by
  intro k
  induction k with
  | zero =>
    intro e he c hc
    unfold rank_go at hc
    by_cases he0 : e = 0
    · subst he0
      rw [if_pos rfl] at hc
      cases hc
    · rw [if_neg he0] at hc
      have hce : c = digitCh e := by simpa using hc
      subst hce
      exact (digit_char_facts e (by omega)).2.2.1
  | succ k ih =>
    intro e he c hc
    unfold rank_go at hc
    split at hc
    · rename_i p hfp
      rcases List.mem_append.mp hc with hc1 | hc1
      · by_cases he0 : e = 0
        · subst he0
          rw [if_pos rfl] at hc1
          cases hc1
        · rw [if_neg he0] at hc1
          have hce : c = digitCh e := by simpa using hc1
          subst hce
          exact (digit_char_facts e (by omega)).2.2.1
      · rcases List.mem_cons.mp hc1 with rfl | hc2
        · exact (piece_char_facts p (find_piece_lt _ _ _ hfp)).2.2.2
        · exact ih 0 (by omega) c hc2
    · exact ih (e + 1) (by omega) c hc

theorem placement_no_ws (b : Board) : ∀ c ∈ placement_chars b, isWs c = false := by
  intro c hc
  unfold placement_chars at hc
  simp only [List.mem_append, List.mem_cons] at hc
  rcases hc with hc | rfl | hc | rfl | hc | rfl | hc | rfl | hc | rfl | hc | rfl | hc | rfl | hc
  all_goals first
    | exact rank_go_no_ws b _ 8 0 (by omega) c hc
    | rfl

theorem placement_ne_nil (b : Board) : placement_chars b ≠ [] := by
  intro h
  have hl := congrArg List.length h
  simp [placement_chars] at hl

theorem castling_chars_facts : ∀ cst < 16, castling_chars cst ≠ [] ∧
    (∀ c ∈ castling_chars cst, isWs c = false) ∧
    parse_castling (castling_chars cst) 0 = cst := by decide

theorem sq_facts : ∀ sq < 64, sq_from_str (String.mk (sq_to_string sq)) = sq ∧
    (∀ c ∈ sq_to_string sq, isWs c = false) ∧ String.mk (sq_to_string sq) ≠ "-" ∧
    sq_to_string sq ≠ [] := by decide

theorem split_ws_six (w1 w2 w3 w4 w5 w6 : List Char)
    (h1 : ∀ c ∈ w1, isWs c = false) (h2 : ∀ c ∈ w2, isWs c = false)
    (h3 : ∀ c ∈ w3, isWs c = false) (h4 : ∀ c ∈ w4, isWs c = false)
    (h5 : ∀ c ∈ w5, isWs c = false) (h6 : ∀ c ∈ w6, isWs c = false)
    (n1 : w1 ≠ []) (n2 : w2 ≠ []) (n3 : w3 ≠ []) (n4 : w4 ≠ []) (n5 : w5 ≠ []) (n6 : w6 ≠ []) :
    split_ws (w1 ++ [' '] ++ w2 ++ [' '] ++ w3 ++ [' '] ++ w4 ++ [' '] ++ w5 ++ [' '] ++ w6) =
      [String.mk w1, String.mk w2, String.mk w3, String.mk w4, String.mk w5, String.mk w6] := by
  unfold split_ws
  have e : w1 ++ [' '] ++ w2 ++ [' '] ++ w3 ++ [' '] ++ w4 ++ [' '] ++ w5 ++ [' '] ++ w6 =
      w1 ++ ' ' :: (w2 ++ ' ' :: (w3 ++ ' ' :: (w4 ++ ' ' :: (w5 ++ ' ' :: w6)))) := by
    simp
  rw [e, split_ws_core_word _ w1 [] h1 (Or.inr n1),
      split_ws_core_word _ w2 [] h2 (Or.inr n2),
      split_ws_core_word _ w3 [] h3 (Or.inr n3),
      split_ws_core_word _ w4 [] h4 (Or.inr n4),
      split_ws_core_word _ w5 [] h5 (Or.inr n5),
      split_ws_core_last w6 [] h6 (Or.inr n6)]
  rfl

theorem parse_eq_fields (zi : ZobristInfo) (fen : String) (w1 w2 w3 w4 w5 w6 : String)
    (rest : List String)
    (hsp : split_ws fen.toList = w1 :: w2 :: w3 :: w4 :: w5 :: w6 :: rest) :
    parse fen zi = parse_fields zi w1 w2 w3 w4 w5 w6 := by
  unfold parse
  rw [hsp]

theorem gen_board_key_congr (zt : ZobristTables) (c1 c2 : Board)
    (hp : c1.pos.piece = c2.pos.piece) (hc : c1.state.castling = c2.state.castling)
    (he : c1.state.enpassant = c2.state.enpassant) (hs : c1.state.side = c2.state.side) :
    gen_board_key zt c1 = gen_board_key zt c2 := by
  unfold gen_board_key
  simp only [hp, hc, he, hs]

/-- The well-formedness a legal position's `Board` satisfies: twelve
piece bitboards within 64 bits, pairwise disjoint, occupancies
derived from them, a consistent opposite side, an en-passant square
on the board or absent, a 4-bit castling mask, clocks within `u32`,
and hashes derived from the position by the given tables. -/
def LegalBoard (zi : ZobristInfo) (b : Board) : Prop :=
  b.pos.piece.length = 12 ∧
  (∀ p ∈ List.range 12, b.pos.piece.getD p 0 < 2 ^ 64) ∧
  PiecesDisjoint b.pos.piece ∧
  b.pos.units = [white_units b.pos.piece, black_units b.pos.piece,
    white_units b.pos.piece ||| black_units b.pos.piece] ∧
  b.state.xside = b.state.side.opposite ∧
  (b.state.enpassant = noSq ∨ b.state.enpassant < 64) ∧
  b.state.castling < 16 ∧
  b.state.half_moves < 2 ^ 32 ∧ b.state.full_moves < 2 ^ 32 ∧
  b.state.key = gen_board_key zi.key b ∧ b.state.lock = gen_board_key zi.lock b

instance (zi : ZobristInfo) (b : Board) : Decidable (LegalBoard zi b) := by
  unfold LegalBoard
  infer_instance

/-- Claim C6: for every `Board` representing a legal position, parsing
the serialized six-field FEN of that board - `parse (gen_fen b) zi` -
reproduces an equal board: the same twelve piece bitboards, side to
move, castling rights, en passant square, halfmove clock and fullmove
counter.  The round trip is lossless for every field the position
tracks (the hashes included, as they are recomputed from the same
fields). -/
theorem fen_roundtrip (zi : ZobristInfo) (b : Board) (h : LegalBoard zi b) :
    parse (gen_fen b) zi = some b := by
  obtain ⟨hlen, hbound, hd, hunits, hxside, hep, hcast, hhalf, hfull, hkey, hlock⟩ := h
  have hhch := nat_chars_go_spec (b.state.half_moves + 1) b.state.half_moves (by omega)
  have hfch := nat_chars_go_spec (b.state.full_moves + 1) b.state.full_moves (by omega)
  have hcf := castling_chars_facts b.state.castling hcast
  have hwside : ∀ c ∈ [(if b.state.side = PieceColor.Light then 'w' else 'b')],
      isWs c = false := by
    intro c hc
    have hce : c = (if b.state.side = PieceColor.Light then 'w' else 'b') := by simpa using hc
    subst hce
    by_cases hs2 : b.state.side = PieceColor.Light
    · rw [if_pos hs2]
      rfl
    · rw [if_neg hs2]
      rfl
  have hepw : ∀ c ∈ (if b.state.enpassant ≠ noSq then sq_to_string b.state.enpassant
      else ['-']), isWs c = false := by
    rcases hep with hepn | hepl
    · rw [if_neg (by simp [hepn])]
      intro c hc
      have hce : c = '-' := by simpa using hc
      subst hce
      rfl
    · rw [if_pos (by unfold noSq; omega)]
      exact (sq_facts b.state.enpassant hepl).2.1
  have hepn2 : (if b.state.enpassant ≠ noSq then sq_to_string b.state.enpassant
      else ['-']) ≠ [] := by
    rcases hep with hepn | hepl
    · rw [if_neg (by simp [hepn])]
      simp
    · rw [if_pos (by unfold noSq; omega)]
      exact (sq_facts b.state.enpassant hepl).2.2.2
  have hsp : split_ws (gen_fen b).toList =
      [String.mk (placement_chars b),
       String.mk [(if b.state.side = PieceColor.Light then 'w' else 'b')],
       String.mk (castling_chars b.state.castling),
       String.mk (if b.state.enpassant ≠ noSq then sq_to_string b.state.enpassant else ['-']),
       String.mk (nat_to_chars b.state.half_moves),
       String.mk (nat_to_chars b.state.full_moves)] := by
    have e0 : (gen_fen b).toList =
        placement_chars b ++ [' '] ++
        [(if b.state.side = PieceColor.Light then 'w' else 'b')] ++ [' '] ++
        castling_chars b.state.castling ++ [' '] ++
        (if b.state.enpassant ≠ noSq then sq_to_string b.state.enpassant else ['-']) ++ [' '] ++
        nat_to_chars b.state.half_moves ++ [' '] ++ nat_to_chars b.state.full_moves := rfl
    rw [e0]
    exact split_ws_six _ _ _ _ _ _
      (placement_no_ws b) hwside hcf.2.1 hepw (fun c hc => (hhch.2.1 c hc).2)
      (fun c hc => (hfch.2.1 c hc).2)
      (placement_ne_nil b) (by simp) hcf.1 hepn2 hhch.1 hfch.1
  rw [parse_eq_fields zi _ _ _ _ _ _ _ [] hsp]
  have hpieces : parse_pieces (String.mk (placement_chars b)).toList (List.replicate 12 0) =
      b.pos.piece := by
    show (List.foldl pp_step (List.replicate 12 0, 0) (placement_chars b)).1 = b.pos.piece
    rw [parse_placement b (List.replicate 12 0)]
    exact place_range_full b hlen hbound hd
  have hu32h : parse_u32 (String.mk (nat_to_chars b.state.half_moves)) =
      some b.state.half_moves := parse_u32_nat_to_chars _ hhalf
  have hu32f : parse_u32 (String.mk (nat_to_chars b.state.full_moves)) =
      some b.state.full_moves := parse_u32_nat_to_chars _ hfull
  have hpieces2 : parse_pieces (placement_chars b) (List.replicate 12 0) = b.pos.piece := hpieces
  have hpos : update_units { piece := b.pos.piece, units := List.replicate 3 0 } = b.pos := by
    show ({ piece := b.pos.piece, units := [white_units b.pos.piece, black_units b.pos.piece,
      white_units b.pos.piece ||| black_units b.pos.piece] } : Position) = b.pos
    rw [← hunits]
  cases hside : b.state.side with
  | Light =>
    have hchar : (if (PieceColor.Light = PieceColor.Light) then 'w' else 'b') = 'w' := rfl
    rw [hchar]
    have hx : b.state.xside = PieceColor.Dark := by rw [hxside, hside]; rfl
    rcases hep with hepn | hepl
    · rw [show (if b.state.enpassant ≠ noSq then sq_to_string b.state.enpassant else ['-']) =
          ['-'] from by rw [if_neg (by simp [hepn])]]
      simp only [parse_fields, board_new, mk_toList, hpieces2, hu32h, hu32f, if_true,
        hcf.2.2, hpos, show (String.mk ['-'] : String) = "-" from rfl,
        show ((("-" : String) ≠ "-")) = False from eq_false (fun h => h rfl), if_false]
      have hk1 : gen_board_key zi.key
          { pos := b.pos,
            state := { side := PieceColor.Light, xside := PieceColor.Dark,
                       enpassant := noSq, castling := b.state.castling,
                       half_moves := b.state.half_moves, full_moves := b.state.full_moves,
                       key := 0, lock := 0 } } = b.state.key := by
        refine (gen_board_key_congr zi.key _ b ?_ ?_ ?_ ?_).trans hkey.symm
        · rfl
        · rfl
        · exact hepn.symm
        · exact hside.symm
      have hk2 : gen_board_key zi.lock
          { pos := b.pos,
            state := { side := PieceColor.Light, xside := PieceColor.Dark,
                       enpassant := noSq, castling := b.state.castling,
                       half_moves := b.state.half_moves, full_moves := b.state.full_moves,
                       key := 0, lock := 0 } } = b.state.lock := by
        refine (gen_board_key_congr zi.lock _ b ?_ ?_ ?_ ?_).trans hlock.symm
        · rfl
        · rfl
        · exact hepn.symm
        · exact hside.symm
      rw [hk1, hk2, ← hepn, ← hside, ← hx]
    · have hne : b.state.enpassant ≠ noSq := by simp only [noSq]; omega
      rw [if_pos hne]
      simp only [parse_fields, board_new, mk_toList, hpieces2, hu32h, hu32f, if_true,
        hcf.2.2, hpos,
        show ((String.mk (sq_to_string b.state.enpassant) ≠ "-")) = True from
          eq_true (sq_facts _ hepl).2.2.1,
        show sq_from_str (String.mk (sq_to_string b.state.enpassant)) = b.state.enpassant from
          (sq_facts _ hepl).1]
      have hk1 : gen_board_key zi.key
          { pos := b.pos,
            state := { side := PieceColor.Light, xside := PieceColor.Dark,
                       enpassant := b.state.enpassant, castling := b.state.castling,
                       half_moves := b.state.half_moves, full_moves := b.state.full_moves,
                       key := 0, lock := 0 } } = b.state.key := by
        refine (gen_board_key_congr zi.key _ b ?_ ?_ ?_ ?_).trans hkey.symm
        · rfl
        · rfl
        · rfl
        · exact hside.symm
      have hk2 : gen_board_key zi.lock
          { pos := b.pos,
            state := { side := PieceColor.Light, xside := PieceColor.Dark,
                       enpassant := b.state.enpassant, castling := b.state.castling,
                       half_moves := b.state.half_moves, full_moves := b.state.full_moves,
                       key := 0, lock := 0 } } = b.state.lock := by
        refine (gen_board_key_congr zi.lock _ b ?_ ?_ ?_ ?_).trans hlock.symm
        · rfl
        · rfl
        · rfl
        · exact hside.symm
      rw [hk1, hk2, ← hside, ← hx]
  | Dark =>
    have hchar : (if (PieceColor.Dark = PieceColor.Light) then 'w' else 'b') = 'b' := rfl
    rw [hchar]
    have hx : b.state.xside = PieceColor.Light := by rw [hxside, hside]; rfl
    rcases hep with hepn | hepl
    · rw [show (if b.state.enpassant ≠ noSq then sq_to_string b.state.enpassant else ['-']) =
          ['-'] from by rw [if_neg (by simp [hepn])]]
      simp only [parse_fields, board_new, mk_toList, hpieces2, hu32h, hu32f, if_true, if_false,
        hcf.2.2, hpos, show (String.mk ['-'] : String) = "-" from rfl,
        show ((("-" : String) ≠ "-")) = False from eq_false (fun h => h rfl),
        show ((String.mk ['b'] : String) = "w") = False from eq_false (by decide),
        show ((String.mk ['b'] : String) = "b") = True from eq_true rfl]
      have hk1 : gen_board_key zi.key
          { pos := b.pos,
            state := { side := PieceColor.Dark, xside := PieceColor.Light,
                       enpassant := noSq, castling := b.state.castling,
                       half_moves := b.state.half_moves, full_moves := b.state.full_moves,
                       key := 0, lock := 0 } } = b.state.key := by
        refine (gen_board_key_congr zi.key _ b ?_ ?_ ?_ ?_).trans hkey.symm
        · rfl
        · rfl
        · exact hepn.symm
        · exact hside.symm
      have hk2 : gen_board_key zi.lock
          { pos := b.pos,
            state := { side := PieceColor.Dark, xside := PieceColor.Light,
                       enpassant := noSq, castling := b.state.castling,
                       half_moves := b.state.half_moves, full_moves := b.state.full_moves,
                       key := 0, lock := 0 } } = b.state.lock := by
        refine (gen_board_key_congr zi.lock _ b ?_ ?_ ?_ ?_).trans hlock.symm
        · rfl
        · rfl
        · exact hepn.symm
        · exact hside.symm
      rw [hk1, hk2, ← hepn, ← hside, ← hx]
    · have hne : b.state.enpassant ≠ noSq := by simp only [noSq]; omega
      rw [if_pos hne]
      simp only [parse_fields, board_new, mk_toList, hpieces2, hu32h, hu32f, if_true, if_false,
        hcf.2.2, hpos,
        show ((String.mk ['b'] : String) = "w") = False from eq_false (by decide),
        show ((String.mk ['b'] : String) = "b") = True from eq_true rfl,
        show ((String.mk (sq_to_string b.state.enpassant) ≠ "-")) = True from
          eq_true (sq_facts _ hepl).2.2.1,
        show sq_from_str (String.mk (sq_to_string b.state.enpassant)) = b.state.enpassant from
          (sq_facts _ hepl).1]
      have hk1 : gen_board_key zi.key
          { pos := b.pos,
            state := { side := PieceColor.Dark, xside := PieceColor.Light,
                       enpassant := b.state.enpassant, castling := b.state.castling,
                       half_moves := b.state.half_moves, full_moves := b.state.full_moves,
                       key := 0, lock := 0 } } = b.state.key := by
        refine (gen_board_key_congr zi.key _ b ?_ ?_ ?_ ?_).trans hkey.symm
        · rfl
        · rfl
        · rfl
        · exact hside.symm
      have hk2 : gen_board_key zi.lock
          { pos := b.pos,
            state := { side := PieceColor.Dark, xside := PieceColor.Light,
                       enpassant := b.state.enpassant, castling := b.state.castling,
                       half_moves := b.state.half_moves, full_moves := b.state.full_moves,
                       key := 0, lock := 0 } } = b.state.lock := by
        refine (gen_board_key_congr zi.lock _ b ?_ ?_ ?_ ?_).trans hlock.symm
        · rfl
        · rfl
        · rfl
        · exact hside.symm
      rw [hk1, hk2, ← hside, ← hx]

/-- A concrete legal position for the round-trip witness: Black to
move, two castling rights, an en-passant square and nonzero clocks,
hashed with the nontrivial demo tables. -/
def roundtrip_board : Board :=
  (parse "k7/8/1K6/8/2n5/8/2R5/8 b Kq c3 7 19" z_demo).getD board_new

/-- Witness for `fen_roundtrip`: the concrete board above is legal and
its FEN parses back to it exactly. -/
theorem fen_roundtrip_witness :
    LegalBoard z_demo roundtrip_board ∧
      parse (gen_fen roundtrip_board) z_demo = some roundtrip_board :=
  ⟨by decide, fen_roundtrip z_demo roundtrip_board (by decide)⟩


end ChessGui
